import Mathlib

/-!
Verification of the incremental scan-and-dedup engine of the image-dedup
repository, as a shallow embedding in Lean 4.

The embedding models the Go sources:
  * `scanner.go` (batched version): `scanDirectory` with `processBatch`,
    `findDuplicates`, `findDuplicatesPaginated`;
  * the HTTP handler file: `handleDeleteFiles`, `handleGetFolderPatterns`,
    `sortStrings`, `sortPatternsByCount`, `createPatternID`,
    `handleBatchDelete`, `formatSize`.

Conventions of the embedding:
  * the persisted table of `ImageFile` rows is a `List ImageFile`; the
    `gorm` primary key `ID` and the bookkeeping timestamps are omitted,
    and row updates/deletes are keyed by `path`, which carries a unique
    index in the schema, so this is observationally the same;
  * `time.Time` values compared with `.Equal` are modelled as `Int`;
  * external collaborators (filesystem stat/rename/delete, the digest
    over file bytes, `filepath.Dir`) are parameters of the functions that
    call them; a fallible external call yields `Option`;
  * the row order a SQL `GROUP BY ... ORDER BY size DESC` query returns
    is passed in as an explicit list, constrained by hypotheses to be a
    size-descending permutation of the grouped keys, because SQL fixes
    nothing more than that;
  * the iteration order of a Go `map` is likewise passed in as a list
    constrained to be a permutation of the map's entries.
-/

/-- A row of the `image_files` table (`ImageFile` in `scanner.go`). -/
structure ImageFile where
  path : String
  size : Int
  hash : String
  modTime : Int
  deriving Repr, DecidableEq

/-- A duplicate group (`DuplicateGroup` in `scanner.go`). -/
structure DuplicateGroup where
  hash : String
  size : Int
  files : List ImageFile
  deriving Repr, DecidableEq

/-- Per-file metadata collected by the directory walk
(`fileInfo` in `scanner.go`). -/
structure FileInfo where
  path : String
  normalizedPath : String
  size : Int
  modTime : Int
  deriving Repr, DecidableEq

/-- `filepath.ToSlash`: replace the OS separator by a forward slash
(the identity on Unix; backslash replacement on Windows; we model the
separator-replacing behaviour). -/
def toSlash (s : String) : String :=
  String.mk (s.data.map (fun c => if c = '\\' then '/' else c))

/-- `filepath.Base` for non-empty slash paths without a trailing slash:
the part after the last `/`; `"."` for the empty path. -/
def baseName (s : String) : String :=
  if s = "" then "."
  else String.mk ((s.data.reverse.takeWhile (fun c => !(c == '/'))).reverse)

/-- A concrete `filepath.Dir` for slash paths used to instantiate the
theorems: everything before the last `/`, `"."` when there is no slash
(the full Go function also cleans the result; the claims only need
*some* fixed dir function, which the theorems quantify over). -/
def dirName (s : String) : String :=
  if s.data.contains '/' then
    String.mk ((s.data.reverse.dropWhile (fun c => !(c == '/'))).reverse.dropLast)
  else "."

/-! ### The exchange sort shared by `sortStrings` and `sortPatternsByCount`

Both Go functions are the same in-place double loop
`for i ...: for j := i+1 ...: if bad(s[i], s[j]) then swap(s[i], s[j])`;
after the inner loop for a fixed `i`, position `i` holds the running
winner of all comparisons and every displaced element stays to the right.
`innerPass bad x l` returns (final value at position `i`, final tail);
`exchSort` iterates it, mirroring the outer loop. -/
/-- One inner `j`-loop of the exchange sort: `x` is the current value at
position `i`, `l` the values at positions `i+1 ...`. -/
def innerPass (bad : α → α → Bool) : α → List α → α × List α
  | x, [] => (x, [])
  | x, y :: ys =>
    if bad x y then
      ((innerPass bad y ys).1, x :: (innerPass bad y ys).2)
    else
      ((innerPass bad x ys).1, y :: (innerPass bad x ys).2)

/-- The outer `i`-loop of the exchange sort, structurally recursive on
the list length (the inner pass preserves length, so the fuel is always
exact). -/
def exchSortAux (bad : α → α → Bool) : Nat → List α → List α
  | _, [] => []
  | 0, l => l
  | fuel + 1, x :: xs =>
    (innerPass bad x xs).1 :: exchSortAux bad fuel (innerPass bad x xs).2

/-- The outer `i`-loop of the exchange sort. -/
def exchSort (bad : α → α → Bool) (l : List α) : List α :=
  exchSortAux bad l.length l

/-! ### `formatSize` (handler file) -/
/-- The `for n := size / unit; n >= unit; n /= unit` loop of
`formatSize`, returning the final `(div, exp)`. -/
def sizeLoop (n div : Int) (exp : Nat) : Int × Nat :=
  if h : 1024 ≤ n then
    sizeLoop (n / 1024) (div * 1024) (exp + 1)
  else
    (div, exp)
termination_by n.toNat
decreasing_by
  omega

/-- `formatSize` of the handler file.  The `%.1f` floating-point
rendering is external to the integer logic and is passed in as
`fmtFloat size div`. -/
def formatSize (fmtFloat : Int → Int → String) (size : Int) : String :=
  if size < 1024 then
    toString size ++ " B"
  else
    let p := sizeLoop (size / 1024) 1024 0
    fmtFloat size p.1 ++ " " ++
      (['K', 'M', 'G', 'T', 'P', 'E'].getD p.2 '?').toString ++ "B"

/-! ### The duplicate grouper (`findDuplicates`, `findDuplicatesPaginated`) -/
/-- The `(hash, size)` key of a row. -/
def recordKey (r : ImageFile) : String × Int := (r.hash, r.size)

/-- Number of rows of `db` having key `k`. -/
def keyCount (db : List ImageFile) (k : String × Int) : Nat :=
  (db.filter (fun r => r.hash == k.1 && r.size == k.2)).length

/-- A row of the grouped query
`SELECT hash, size, count(*) GROUP BY hash, size HAVING count(*) > 1`. -/
structure HashSizeCount where
  hash : String
  size : Int
  count : Nat
  deriving Repr, DecidableEq

/-- The multiset of rows the grouped `HAVING count(*) > 1` query
returns, listed in first-occurrence order of the keys (SQL fixes no
order for this query; callers needing the `ORDER BY size DESC` variant
receive the returned row order as an explicit argument). -/
def groupCounts (db : List ImageFile) : List HashSizeCount :=
  ((db.map recordKey).dedup.filter (fun k => 1 < keyCount db k)).map
    (fun k => ⟨k.1, k.2, keyCount db k⟩)

/-- `db.Where("hash = ? AND size = ?", h, s).Find(&files)`. -/
def filesForKey (db : List ImageFile) (h : String) (s : Int) : List ImageFile :=
  db.filter (fun r => r.hash == h && r.size == s)

/-- `findDuplicates` of `scanner.go`.  `ex` is the `os.Stat` existence
check.  Iterates over the duplicate keys; for each key it fetches the
key's rows from the current table state, deletes the rows whose path no
longer exists, and keeps the group only if more than one row survives.
Returns the groups and the table state after the lazy cleanup. -/
def findDupStep (ex : String → Bool)
    (acc : List DuplicateGroup × List ImageFile) (hs : HashSizeCount) :
    List DuplicateGroup × List ImageFile :=
  let files := filesForKey acc.2 hs.hash hs.size
  let existingFiles := files.filter (fun f => ex f.path)
  let newDb := acc.2.filter
    (fun r => !(r.hash == hs.hash && r.size == hs.size) || ex r.path)
  (if 1 < existingFiles.length then
      acc.1 ++ [⟨hs.hash, hs.size, existingFiles⟩]
    else acc.1,
   newDb)

def findDuplicates (ex : String → Bool) (db : List ImageFile) :
    List DuplicateGroup × List ImageFile :=
  (groupCounts db).foldl (findDupStep ex) ([], db)

/-- Builds one paginated group from a grouped-query row: fetch the
key's rows and keep the group if more than one row is present. -/
def pageGroup (db : List ImageFile) (hs : HashSizeCount) : Option DuplicateGroup :=
  let files := filesForKey db hs.hash hs.size
  if 1 < files.length then some ⟨hs.hash, hs.size, files⟩ else none

/-- `findDuplicatesPaginated` of `scanner.go` (the 4-result version):
no file-existence check, no deletion.  `ko` is the row order in which
the backend returns the grouped `ORDER BY size DESC` query; the code
constrains it no further than that, so it is an explicit argument.
Returns (page groups, total group count, total file count). -/
def findDuplicatesPaginated (db : List ImageFile) (ko : List HashSizeCount)
    (offset limit : Nat) : List DuplicateGroup × Nat × Nat :=
  let totalGroups := ko.length
  let totalFiles := (ko.map (fun hs => hs.count)).sum
  if ko.length ≤ offset then
    ([], totalGroups, totalFiles)
  else
    (((ko.drop offset).take limit).filterMap (pageGroup db),
     totalGroups, totalFiles)

/-- What it means for `ko` to be a row order the backend may return for
the grouped query of `findDuplicatesPaginated`: a permutation of the
grouped rows, sorted by size descending - and nothing more. -/
def ValidKeyOrder (db : List ImageFile) (ko : List HashSizeCount) : Prop :=
  ko.Perm (groupCounts db) ∧ ko.Sorted (fun a b => b.size ≤ a.size)

/-- Rows surviving the lazy cleanup after the keys in `ks` have been
processed: a row is dropped iff it matches a processed key and its path
fails the existence check. -/
def keptAfter (ex : String → Bool) (ks : List HashSizeCount) (r : ImageFile) : Bool :=
  !(ks.any (fun hs => r.hash == hs.hash && r.size == hs.size) && !ex r.path)

/-! ### Folder patterns (handler file) -/
/-- `FolderPattern` of the handler file. -/
structure FolderPattern where
  id : String
  folders : List String
  duplicateCount : Nat
  totalFiles : Nat
  deriving Repr, DecidableEq

/-- `sortStrings` of the handler file: the in-place exchange sort over
strings, swapping positions `i < j` whenever `s[i] > s[j]`. -/
def sortStrings (s : List String) : List String :=
  exchSort (fun a b => decide (b < a)) s

/-- `createPatternID` of the handler file: join the sorted folder paths
with `"|"`. -/
def createPatternID (folders : List String) : String :=
  String.intercalate "|" folders

/-- `sortPatternsByCount` of the handler file: the same exchange sort,
swapping whenever `patterns[i].DuplicateCount < patterns[j].DuplicateCount`
(descending order, no tie-break). -/
def sortPatternsByCount (patterns : List FolderPattern) : List FolderPattern :=
  exchSort (fun p q => decide (p.duplicateCount < q.duplicateCount)) patterns

/-- The distinct containing folders of a group's files, in
first-occurrence order (the `folderSet` map built in both
`handleGetFolderPatterns` and `handleBatchDelete`; Go map iteration
order is arbitrary, so theorems quantify over permutations of this
list). -/
def groupFolders (dir : String → String) (g : DuplicateGroup) : List String :=
  (g.files.map (fun f => dir f.path)).dedup

/-- The pattern identity as computed in `handleGetFolderPatterns`:
sort the folder set with `sortStrings`, join with `createPatternID`. -/
def listingPatternID (folders : List String) : String :=
  createPatternID (sortStrings folders)

/-- The pattern identity as computed in `handleBatchDelete` - textually
the same computation as in the listing handler. -/
def batchPatternID (folders : List String) : String :=
  createPatternID (sortStrings folders)

/-- The pattern identity in the spec's words: the lexicographically
sorted list of the group's distinct containing folders joined with
`"|"`. -/
def specPatternID (dir : String → String) (g : DuplicateGroup) : String :=
  String.intercalate "|" (List.insertionSort (· ≤ ·) (groupFolders dir g))

/-- One `patternMap` update of `handleGetFolderPatterns`: bump the
existing pattern's counters, or insert a fresh entry (kept in
first-insertion order; map iteration order is quantified separately). -/
def insertPattern (pid : String) (folders : List String) (n : Nat)
    (acc : List FolderPattern) : List FolderPattern :=
  if acc.any (fun p => p.id == pid) then
    acc.map (fun p =>
      if p.id == pid then
        { p with duplicateCount := p.duplicateCount + 1,
                 totalFiles := p.totalFiles + n }
      else p)
  else
    acc ++ [⟨pid, folders, 1, n⟩]

/-- The `patternMap` aggregation loop of `handleGetFolderPatterns`. -/
def buildPatterns (dir : String → String) (groups : List DuplicateGroup) :
    List FolderPattern :=
  groups.foldl
    (fun acc g =>
      let folders := sortStrings (groupFolders dir g)
      insertPattern (createPatternID folders) folders g.files.length acc)
    []

/-! ### Disposal (handler file) -/
/-- State threaded through the disposal loops: the table, the
success/failure counters and failure list of the JSON response, plus an
instrumentation list of the paths a physical disposal was attempted on,
in order. -/
structure DisposalState where
  db : List ImageFile
  success : Nat
  failed : Nat
  failedFiles : List String
  attempted : List String
  deriving Repr, DecidableEq

/-- One file disposal, shared shape of the loop bodies of
`handleDeleteFiles` and `handleBatchDelete`: attempt the physical
move-to-trash or delete (the external `dispose` returns `none` on
success and the error text on failure; the trash-name disambiguation
lives inside it), on failure append `Base(path) + ": " + reason` and
continue, on success delete the rows keyed by the slash-normalized path
and bump the counter. -/
def disposeOne (dispose : String → Option String) (st : DisposalState)
    (p : String) : DisposalState :=
  let st1 := { st with attempted := st.attempted ++ [p] }
  match dispose p with
  | some reason =>
    { st1 with failed := st1.failed + 1,
               failedFiles := st1.failedFiles ++ [baseName p ++ ": " ++ reason] }
  | none =>
    { st1 with db := st1.db.filter (fun r => !(r.path == toSlash p)),
               success := st1.success + 1 }

/-- The per-path loop of `handleDeleteFiles` (the trash and
permanent-delete branches differ only inside `dispose`). -/
def handleDeleteFiles (dispose : String → Option String)
    (db : List ImageFile) (paths : List String) : DisposalState :=
  paths.foldl (disposeOne dispose) ⟨db, 0, 0, [], []⟩

/-- `ruleMap` lookup of `handleBatchDelete`: the Go loop writes the
rules into a map, so a later rule overwrites an earlier one with the
same pattern id. -/
def ruleLookup (rules : List (String × String)) (pid : String) : Option String :=
  (rules.reverse.find? (fun rule => rule.1 == pid)).map (fun rule => rule.2)

/-- The per-group body of `handleBatchDelete`: recompute the group's
pattern identity exactly as the listing does; without a matching rule
the group is left untouched; with one, dispose every member file whose
containing folder differs from the kept folder. -/
def batchDeleteGroup (dispose : String → Option String)
    (dir : String → String) (ruleMap : List (String × String))
    (st : DisposalState) (g : DuplicateGroup) : DisposalState :=
  let patternID := createPatternID (sortStrings (groupFolders dir g))
  match ruleLookup ruleMap patternID with
  | none => st
  | some keepFolder =>
    g.files.foldl
      (fun st2 f =>
        if dir f.path == keepFolder then st2
        else disposeOne dispose st2 f.path) st

/-- The group loop of `handleBatchDelete` over the full duplicate set. -/
def handleBatchDelete (dispose : String → Option String)
    (dir : String → String) (ruleMap : List (String × String))
    (db : List ImageFile) (groups : List DuplicateGroup) : DisposalState :=
  groups.foldl (batchDeleteGroup dispose dir ruleMap) ⟨db, 0, 0, [], []⟩

/-- The paths one group submits for disposal: with a matching rule, the
paths of the member files outside the kept folder; nothing otherwise. -/
def rulePaths (dir : String → String) (ruleMap : List (String × String))
    (g : DuplicateGroup) : List String :=
  match ruleLookup ruleMap
      (createPatternID (sortStrings (groupFolders dir g))) with
  | none => []
  | some keepFolder =>
    (g.files.filter (fun f => !(dir f.path == keepFolder))).map
      (fun f => f.path)

/-- The paths `handleBatchDelete` submits for disposal, group by group. -/
def batchPaths (dir : String → String) (ruleMap : List (String × String))
    (groups : List DuplicateGroup) : List String :=
  groups.flatMap (rulePaths dir ruleMap)

/-! ### The incremental scanner (`scanDirectory` with `processBatch`) -/
/-- Row lookup by normalized path (the per-path view of the batch
`WHERE path IN ?` query; `path` carries a unique index). -/
def findByPath (db : List ImageFile) (p : String) : Option ImageFile :=
  db.find? (fun r => r.path == p)

/-- The cache-hit test of `processBatch`: a record exists under the
file's normalized path and its stored modification time and size equal
the on-disk ones. -/
def cacheHit (db : List ImageFile) (fi : FileInfo) : Bool :=
  match findByPath db fi.normalizedPath with
  | some existing => existing.modTime == fi.modTime && existing.size == fi.size
  | none => false

/-- Decision results of one batch: rows to batch-create, rows to save,
and the number of digest invocations (`calculateFileHash` calls). -/
structure BatchDecision where
  toCreate : List ImageFile
  toUpdate : List ImageFile
  hashCalls : Nat
  deriving Repr, DecidableEq

/-- One step of the decision loop of `processBatch`, run against the
pre-batch table state: skip a cache hit, hash otherwise (`hashFn`
returns `none` when `calculateFileHash` fails - the file is then
skipped), and queue an update when a row exists or a create when none
does. -/
def decideStep (hashFn : String → Option String) (db : List ImageFile)
    (acc : BatchDecision) (fi : FileInfo) : BatchDecision :=
  match findByPath db fi.normalizedPath with
  | some existing =>
    if existing.modTime == fi.modTime && existing.size == fi.size then
      acc
    else
      match hashFn fi.path with
      | none => { acc with hashCalls := acc.hashCalls + 1 }
      | some h =>
        { acc with
            toUpdate := acc.toUpdate ++
              [⟨fi.normalizedPath, fi.size, h, fi.modTime⟩],
            hashCalls := acc.hashCalls + 1 }
  | none =>
    match hashFn fi.path with
    | none => { acc with hashCalls := acc.hashCalls + 1 }
    | some h =>
      { acc with
          toCreate := acc.toCreate ++
            [⟨fi.normalizedPath, fi.size, h, fi.modTime⟩],
          hashCalls := acc.hashCalls + 1 }

/-- The decision loop of `processBatch` over one batch. -/
def batchDecide (hashFn : String → Option String) (db : List ImageFile)
    (batch : List FileInfo) : BatchDecision :=
  batch.foldl (decideStep hashFn db) ⟨[], [], 0⟩

/-- `db.Save` of one row: it is replaced by the queued update carrying
its unique path, if any. -/
def saveRow (toUpdate : List ImageFile) (r : ImageFile) : ImageFile :=
  match toUpdate.find? (fun u => u.path == r.path) with
  | some u => u
  | none => r

/-- `db.Save` for every queued update. -/
def applyUpdates (db : List ImageFile) (toUpdate : List ImageFile) :
    List ImageFile :=
  db.map (saveRow toUpdate)

/-- `processBatch`: decide against the pre-batch table, then apply the
saves and append the batch-created rows; also returns the number of
digest invocations. -/
def processBatch (hashFn : String → Option String) (db : List ImageFile)
    (batch : List FileInfo) : List ImageFile × Nat :=
  let d := batchDecide hashFn db batch
  (applyUpdates db d.toUpdate ++ d.toCreate, d.hashCalls)

/-- The walk accumulates files and processes them in batches of
`batchSize = 50`, the trailing partial batch included. -/
def chunks50 : List FileInfo → List (List FileInfo)
  | [] => []
  | x :: xs => (x :: xs.take 49) :: chunks50 (xs.drop 49)
termination_by l => l.length
decreasing_by
  simp only [List.length_drop, List.length_cons]
  omega

/-- One batch step of the scan: process the batch against the current
table, accumulate the digest-invocation count. -/
def scanStep (hashFn : String → Option String) (acc : List ImageFile × Nat)
    (batch : List FileInfo) : List ImageFile × Nat :=
  let r := processBatch hashFn acc.1 batch
  (r.1, acc.2 + r.2)

/-- `scanDirectory` of `scanner.go` over the files the walk visits
(regular files with a supported image extension, in walk order):
process batch after batch, threading the table; returns the final table
and the total number of digest invocations. -/
def scanDirectory (hashFn : String → Option String) (db : List ImageFile)
    (files : List FileInfo) : List ImageFile × Nat :=
  (chunks50 files).foldl (scanStep hashFn) (db, 0)

/-- Per-file create contribution of the decision loop. -/
def createOf (hashFn : String → Option String) (db : List ImageFile)
    (fi : FileInfo) : List ImageFile :=
  match findByPath db fi.normalizedPath with
  | some _ => []
  | none =>
    match hashFn fi.path with
    | none => []
    | some h => [⟨fi.normalizedPath, fi.size, h, fi.modTime⟩]

/-- Per-file update contribution of the decision loop. -/
def updateOf (hashFn : String → Option String) (db : List ImageFile)
    (fi : FileInfo) : List ImageFile :=
  match findByPath db fi.normalizedPath with
  | some existing =>
    if existing.modTime == fi.modTime && existing.size == fi.size then []
    else
      match hashFn fi.path with
      | none => []
      | some h => [⟨fi.normalizedPath, fi.size, h, fi.modTime⟩]
  | none => []

/-- Per-file digest-invocation count of the decision loop. -/
def callsOf (db : List ImageFile) (fi : FileInfo) : Nat :=
  if cacheHit db fi then 0 else 1

theorem innerPass_snd_length (bad : α → α → Bool) :
    ∀ (x : α) (l : List α), ((innerPass bad x l).2).length = l.length := by
  intro x l
  induction l generalizing x with
  | nil => simp [innerPass]
  | cons y ys ih =>
    by_cases h : bad x y
    · simp [innerPass, h, ih]
    · simp [innerPass, h, ih]

theorem innerPass_cons (bad : α → α → Bool) (x y : α) (ys : List α) :
    innerPass bad x (y :: ys) =
      if bad x y then
        ((innerPass bad y ys).1, x :: (innerPass bad y ys).2)
      else
        ((innerPass bad x ys).1, y :: (innerPass bad x ys).2) := rfl

theorem innerPass_perm (bad : α → α → Bool) :
    ∀ (x : α) (l : List α),
      ((innerPass bad x l).1 :: (innerPass bad x l).2).Perm (x :: l) := by
  intro x l
  induction l generalizing x with
  | nil => simp [innerPass]
  | cons y ys ih =>
    rw [innerPass_cons]
    by_cases h : bad x y
    · rw [if_pos h]
      exact (List.Perm.swap x _ _).trans (List.Perm.cons x (ih y))
    · rw [if_neg h]
      exact ((List.Perm.swap y _ _).trans (List.Perm.cons y (ih x))).trans
        (List.Perm.swap _ _ _)

/-- After one inner pass the selected head beats every element left in
the tail, provided the comparator is asymmetric and its complement is
transitive. -/
theorem innerPass_good (bad : α → α → Bool)
    (hasym : ∀ a b, bad a b = true → bad b a = false)
    (htrans : ∀ a b c, bad a b = false → bad b c = false → bad a c = false) :
    ∀ (x : α) (l : List α) (z : α), z ∈ (innerPass bad x l).2 →
      bad (innerPass bad x l).1 z = false := by
  intro x l
  induction l generalizing x with
  | nil => simp [innerPass]
  | cons y ys ih =>
    intro z hz
    rw [innerPass_cons] at hz ⊢
    by_cases h : bad x y
    · rw [if_pos h] at hz ⊢
      rcases List.mem_cons.mp hz with hzx | hz2
      · -- z is the displaced old head x; the selected head beats x
        have hy : y ∈ ((innerPass bad y ys).1 :: (innerPass bad y ys).2) :=
          (innerPass_perm bad y ys).symm.mem_iff.mp (List.mem_cons_self y ys)
        have hyx : bad y x = false := hasym x y h
        subst hzx
        rcases List.mem_cons.mp hy with hy1 | hy2
        · rw [← hy1]; exact hyx
        · exact htrans _ y z (ih y y hy2) hyx
      · exact ih y z hz2
    · rw [if_neg h] at hz ⊢
      have hxy : bad x y = false := by
        cases hb : bad x y
        · rfl
        · exact absurd hb h
      rcases List.mem_cons.mp hz with hzy | hz2
      · -- z is the kept element y; the selected head beats y through x
        have hx : x ∈ ((innerPass bad x ys).1 :: (innerPass bad x ys).2) :=
          (innerPass_perm bad x ys).symm.mem_iff.mp (List.mem_cons_self x ys)
        subst hzy
        rcases List.mem_cons.mp hx with hx1 | hx2
        · rw [← hx1]; exact hxy
        · exact htrans _ x z (ih x x hx2) hxy
      · exact ih x z hz2

theorem exchSort_nil (bad : α → α → Bool) : exchSort bad [] = [] := rfl

theorem exchSort_cons (bad : α → α → Bool) (x : α) (xs : List α) :
    exchSort bad (x :: xs) =
      (innerPass bad x xs).1 :: exchSort bad (innerPass bad x xs).2 := by
  show exchSortAux bad (x :: xs).length (x :: xs) = _
  rw [List.length_cons, exchSortAux]
  unfold exchSort
  rw [innerPass_snd_length]

theorem exchSort_perm (bad : α → α → Bool) :
    ∀ (l : List α), (exchSort bad l).Perm l
  | [] => by simp [exchSort_nil]
  | x :: xs => by
    rw [exchSort_cons]
    have ih := exchSort_perm bad (innerPass bad x xs).2
    exact (List.Perm.cons _ ih).trans (innerPass_perm bad x xs)
termination_by l => l.length
decreasing_by
  simp [innerPass_snd_length]

theorem exchSort_pairwise (bad : α → α → Bool)
    (hasym : ∀ a b, bad a b = true → bad b a = false)
    (htrans : ∀ a b c, bad a b = false → bad b c = false → bad a c = false) :
    ∀ (l : List α), (exchSort bad l).Pairwise (fun a b => bad a b = false)
  | [] => by simp [exchSort_nil]
  | x :: xs => by
    rw [exchSort_cons]
    refine List.Pairwise.cons ?_ (exchSort_pairwise bad hasym htrans _)
    intro z hz
    have hz2 : z ∈ (innerPass bad x xs).2 :=
      (exchSort_perm bad _).mem_iff.mp hz
    exact innerPass_good bad hasym htrans x xs z hz2
termination_by l => l.length
decreasing_by
  simp [innerPass_snd_length]

theorem sizeLoop_exp_le :
    ∀ (k : Nat) (n div : Int) (exp : Nat), n < 1024 ^ (k + 1) →
      (sizeLoop n div exp).2 ≤ exp + k := by
  intro k
  induction k with
  | zero =>
    intro n div exp h
    rw [sizeLoop]
    have hn : ¬ (1024 ≤ n) := by
      have hp : (1024 : Int) ^ (0 + 1) = 1024 := by norm_num
      omega
    rw [dif_neg hn]
    exact Nat.le_refl _
  | succ k ih =>
    intro n div exp h
    rw [sizeLoop]
    by_cases hn : 1024 ≤ n
    · rw [dif_pos hn]
      have hdiv : n / 1024 < 1024 ^ (k + 1) := by
        rw [Int.ediv_lt_iff_lt_mul (by norm_num)]
        have hpow : (1024 : Int) ^ (k + 1 + 1) = 1024 ^ (k + 1) * 1024 := by ring
        omega
      have := ih (n / 1024) (div * 1024) (exp + 1) hdiv
      omega
    · rw [dif_neg hn]
      exact Nat.le_add_right _ _

/-- C10: for every non-negative `int64` size, `formatSize`'s exponent
into the unit string `"KMGTPE"` stays within bounds (`exp ≤ 5` because
`size < 2^63`), and any size strictly below 1024 renders as the decimal
size followed by `" B"`. -/
theorem formatSize_safe (fmtFloat : Int → Int → String) (size : Int)
    (h0 : 0 ≤ size) (h63 : size < 2 ^ 63) :
    (sizeLoop (size / 1024) 1024 0).2 ≤ 5 ∧
    (size < 1024 → formatSize fmtFloat size = toString size ++ " B") := by
  constructor
  · have hdiv : size / 1024 < 1024 ^ (5 + 1) := by
      rw [Int.ediv_lt_iff_lt_mul (by norm_num)]
      have h1 : (1024 : Int) ^ (5 + 1) * 1024 = 2 ^ 70 := by norm_num
      have h2 : (2 : Int) ^ 63 ≤ 2 ^ 70 := by norm_num
      omega
    have hb := sizeLoop_exp_le 5 (size / 1024) 1024 0 hdiv
    omega
  · intro h
    simp [formatSize, h]

theorem formatSize_safe_witness :
    (0 ≤ (500 : Int)) ∧ (500 : Int) < 2 ^ 63 ∧
      ((sizeLoop ((500 : Int) / 1024) 1024 0).2 ≤ 5 ∧
       ((500 : Int) < 1024 →
          formatSize (fun _ _ => "") 500 = toString (500 : Int) ++ " B")) :=
  ⟨by norm_num, by norm_num,
    formatSize_safe (fun _ _ => "") 500 (by norm_num) (by norm_num)⟩

theorem bool_kept_append (a b e : Bool) :
    ((!b || e) && (!(a && !e))) = (!((a || b) && !e)) := by
  cases a <;> cases b <;> cases e <;> rfl

theorem keptAfter_append_singleton (ex : String → Bool)
    (ks : List HashSizeCount) (hs : HashSizeCount) (r : ImageFile) :
    ((!(r.hash == hs.hash && r.size == hs.size) || ex r.path) &&
        keptAfter ex ks r) =
      keptAfter ex (ks ++ [hs]) r := by
  simp only [keptAfter, List.any_append, List.any_cons, List.any_nil,
    Bool.or_false]
  exact bool_kept_append _ _ _

theorem filesForKey_filter_kept (ex : String → Bool) (db : List ImageFile)
    (processed : List HashSizeCount) (hs : HashSizeCount)
    (hdisj : ∀ hs2 ∈ processed, (hs.hash, hs.size) ≠ (hs2.hash, hs2.size)) :
    filesForKey (db.filter (keptAfter ex processed)) hs.hash hs.size =
      filesForKey db hs.hash hs.size := by
  unfold filesForKey
  rw [List.filter_filter]
  apply List.filter_congr
  intro r _
  by_cases hk : (r.hash == hs.hash && r.size == hs.size) = true
  · have hh : r.hash = hs.hash ∧ r.size = hs.size := by simpa using hk
    have hany : processed.any
        (fun hs2 => r.hash == hs2.hash && r.size == hs2.size) = false := by
      rw [List.any_eq_false]
      intro hs2 hmem hmatch
      have h2 : r.hash = hs2.hash ∧ r.size = hs2.size := by simpa using hmatch
      exact hdisj hs2 hmem (by rw [← hh.1, ← hh.2, ← h2.1, ← h2.2])
    simp [keptAfter, hany, hk]
  · simp only [Bool.not_eq_true] at hk
    simp [hk]

theorem findDuplicates_foldl (ex : String → Bool) (db : List ImageFile) :
    ∀ (ks processed : List HashSizeCount) (gs : List DuplicateGroup),
      (∀ hs ∈ ks, ∀ hs2 ∈ processed, (hs.hash, hs.size) ≠ (hs2.hash, hs2.size)) →
      (ks.map (fun hs => (hs.hash, hs.size))).Nodup →
      ks.foldl (findDupStep ex) (gs, db.filter (keptAfter ex processed)) =
        (gs ++ ks.filterMap (fun hs =>
            let ef := (filesForKey db hs.hash hs.size).filter (fun f => ex f.path)
            if 1 < ef.length then some ⟨hs.hash, hs.size, ef⟩ else none),
         db.filter (keptAfter ex (processed ++ ks))) := by
  intro ks
  induction ks with
  | nil =>
    intro processed gs _ _
    simp
  | cons hs ks ih =>
    intro processed gs hdisj hnodup
    rw [List.foldl_cons]
    have hstep : findDupStep ex (gs, db.filter (keptAfter ex processed)) hs =
        (if 1 < ((filesForKey db hs.hash hs.size).filter
              (fun f => ex f.path)).length then
            gs ++ [⟨hs.hash, hs.size,
              (filesForKey db hs.hash hs.size).filter (fun f => ex f.path)⟩]
          else gs,
         db.filter (keptAfter ex (processed ++ [hs]))) := by
      unfold findDupStep
      rw [filesForKey_filter_kept ex db processed hs
        (fun hs2 h2 => hdisj hs (List.mem_cons_self hs ks) hs2 h2)]
      have hdb : (db.filter (keptAfter ex processed)).filter
          (fun r => !(r.hash == hs.hash && r.size == hs.size) || ex r.path) =
          db.filter (keptAfter ex (processed ++ [hs])) := by
        rw [List.filter_filter]
        apply List.filter_congr
        intro r _
        exact keptAfter_append_singleton ex processed hs r
      rw [hdb]
    rw [hstep]
    rw [List.map_cons, List.nodup_cons] at hnodup
    have hdisj2 : ∀ hs2 ∈ ks, ∀ hs3 ∈ processed ++ [hs],
        (hs2.hash, hs2.size) ≠ (hs3.hash, hs3.size) := by
      intro hs2 h2 hs3 h3
      rcases List.mem_append.mp h3 with h3p | h3s
      · exact hdisj hs2 (List.mem_cons_of_mem hs h2) hs3 h3p
      · have h3e : hs3 = hs := by simpa using h3s
        subst h3e
        intro heq
        exact hnodup.1 (List.mem_map.mpr ⟨hs2, h2, heq⟩)
    by_cases hg : 1 < ((filesForKey db hs.hash hs.size).filter
        (fun f => ex f.path)).length
    · rw [if_pos hg]
      rw [ih (processed ++ [hs])
        (gs ++ [DuplicateGroup.mk hs.hash hs.size
          ((filesForKey db hs.hash hs.size).filter (fun f => ex f.path))])
        hdisj2 hnodup.2]
      simp only [List.filterMap_cons]
      rw [if_pos hg]
      simp [List.append_assoc]
    · rw [if_neg hg]
      rw [ih (processed ++ [hs]) gs hdisj2 hnodup.2]
      simp only [List.filterMap_cons]
      rw [if_neg hg]
      simp [List.append_assoc]

theorem groupCounts_keys_nodup (db : List ImageFile) :
    ((groupCounts db).map (fun hs => (hs.hash, hs.size))).Nodup := by
  unfold groupCounts
  rw [List.map_map]
  have hid : ((fun hs : HashSizeCount => (hs.hash, hs.size)) ∘
      (fun k : String × Int => (⟨k.1, k.2, keyCount db k⟩ : HashSizeCount))) =
      id := by
    funext k
    cases k
    rfl
  rw [hid, List.map_id]
  exact (List.nodup_dedup _).filter _

/-- Closed form of `findDuplicates`: the returned groups are the
duplicate keys whose existence-filtered rows still number more than one,
and the returned table is the input minus exactly the stale rows of
duplicate keys. -/
theorem findDuplicates_eq (ex : String → Bool) (db : List ImageFile) :
    findDuplicates ex db =
      ((groupCounts db).filterMap (fun hs =>
          let ef := (filesForKey db hs.hash hs.size).filter (fun f => ex f.path)
          if 1 < ef.length then some ⟨hs.hash, hs.size, ef⟩ else none),
       db.filter (keptAfter ex (groupCounts db))) := by
  unfold findDuplicates
  have h0 : db.filter (keptAfter ex []) = db :=
    List.filter_eq_self.mpr (fun r _ => rfl)
  have hpair : (([], db) : List DuplicateGroup × List ImageFile) =
      ([], db.filter (keptAfter ex [])) := by rw [h0]
  rw [hpair, findDuplicates_foldl ex db (groupCounts db) [] []
    (by intro hs _ hs2 h2; exact absurd h2 (List.not_mem_nil hs2))
    (groupCounts_keys_nodup db)]
  simp

theorem any_groupCounts_keyMatch (db : List ImageFile) (r : ImageFile)
    (hr : r ∈ db) :
    (groupCounts db).any (fun hs => r.hash == hs.hash && r.size == hs.size) =
      decide (1 < keyCount db (recordKey r)) := by
  by_cases h : 1 < keyCount db (recordKey r)
  · rw [decide_eq_true h, List.any_eq_true]
    refine ⟨⟨r.hash, r.size, keyCount db (r.hash, r.size)⟩, ?_, by simp⟩
    unfold groupCounts
    apply List.mem_map.mpr
    refine ⟨(r.hash, r.size), ?_, rfl⟩
    rw [List.mem_filter]
    exact ⟨List.mem_dedup.mpr (List.mem_map.mpr ⟨r, hr, rfl⟩), decide_eq_true h⟩
  · rw [decide_eq_false h, List.any_eq_false]
    intro hs hmem hmatch
    unfold groupCounts at hmem
    rcases List.mem_map.mp hmem with ⟨k, hk, rfl⟩
    rcases List.mem_filter.mp hk with ⟨_, hkc⟩
    have hm : r.hash = k.1 ∧ r.size = k.2 := by simpa using hmatch
    have hrk : recordKey r = k := by
      cases k
      simp only [recordKey]
      rw [hm.1, hm.2]
    exact h (by rw [hrk]; exact of_decide_eq_true hkc)

/-- The shape of a group emitted by `findDuplicates`. -/
theorem findDuplicates_group_spec (ex : String → Bool) (db : List ImageFile)
    (g : DuplicateGroup) (hg : g ∈ (findDuplicates ex db).1) :
    ∃ hs ∈ groupCounts db, g.hash = hs.hash ∧ g.size = hs.size ∧
      g.files = (filesForKey db hs.hash hs.size).filter (fun f => ex f.path) ∧
      1 < g.files.length := by
  rw [findDuplicates_eq] at hg
  rcases List.mem_filterMap.mp hg with ⟨hs, hmem, hmk⟩
  refine ⟨hs, hmem, ?_⟩
  dsimp only at hmk
  by_cases hlen : 1 <
      ((filesForKey db hs.hash hs.size).filter (fun f => ex f.path)).length
  · rw [if_pos hlen] at hmk
    cases hmk
    exact ⟨rfl, rfl, rfl, hlen⟩
  · rw [if_neg hlen] at hmk
    cases hmk

/-- C2 (amended): in the *unpaginated* listing `findDuplicates`, every
index record of a duplicate `(digest,size)` key whose path fails the
existence check at query time is deleted from the returned index and
excluded from the returned groups.  The paginated listing performs no
existence check and no deletion (see the counterexample). -/
theorem findDuplicates_lazy_cleanup (ex : String → Bool) (db : List ImageFile)
    (r : ImageFile) (_hr : r ∈ db) (hdup : 1 < keyCount db (recordKey r))
    (hstale : ex r.path = false) :
    r ∉ (findDuplicates ex db).2 ∧
      ∀ g ∈ (findDuplicates ex db).1, r ∉ g.files := by
  constructor
  · rw [findDuplicates_eq]
    intro hmem
    rw [List.mem_filter] at hmem
    have hk : keptAfter ex (groupCounts db) r = true := hmem.2
    unfold keptAfter at hk
    rw [any_groupCounts_keyMatch db r hmem.1, hstale, decide_eq_true hdup] at hk
    simp at hk
  · intro g hg hrg
    rcases findDuplicates_group_spec ex db g hg with ⟨hs, _, _, _, hfiles, _⟩
    rw [hfiles, List.mem_filter] at hrg
    rw [hstale] at hrg
    exact Bool.false_ne_true hrg.2

theorem findDuplicates_lazy_cleanup_witness :
    (⟨"b/x.jpg", 5, "h", 0⟩ : ImageFile) ∈
        [(⟨"a/x.jpg", 5, "h", 0⟩ : ImageFile), ⟨"b/x.jpg", 5, "h", 0⟩] ∧
    1 < keyCount [(⟨"a/x.jpg", 5, "h", 0⟩ : ImageFile), ⟨"b/x.jpg", 5, "h", 0⟩]
        (recordKey ⟨"b/x.jpg", 5, "h", 0⟩) ∧
    (fun p => p == "a/x.jpg") (ImageFile.path ⟨"b/x.jpg", 5, "h", 0⟩) = false ∧
    ((⟨"b/x.jpg", 5, "h", 0⟩ : ImageFile) ∉
        (findDuplicates (fun p => p == "a/x.jpg")
          [⟨"a/x.jpg", 5, "h", 0⟩, ⟨"b/x.jpg", 5, "h", 0⟩]).2 ∧
      ∀ g ∈ (findDuplicates (fun p => p == "a/x.jpg")
          [⟨"a/x.jpg", 5, "h", 0⟩, ⟨"b/x.jpg", 5, "h", 0⟩]).1,
        (⟨"b/x.jpg", 5, "h", 0⟩ : ImageFile) ∉ g.files) :=
  ⟨by decide, by decide, by decide,
    findDuplicates_lazy_cleanup (fun p => p == "a/x.jpg")
      [⟨"a/x.jpg", 5, "h", 0⟩, ⟨"b/x.jpg", 5, "h", 0⟩]
      ⟨"b/x.jpg", 5, "h", 0⟩ (by decide) (by decide) (by decide)⟩

/-- C2 counterexample: the paginated listing returns a record whose path
fails the existence check (it never consults the filesystem and returns
no modified index), so the claimed lazy cleanup does not hold for it. -/
theorem findDuplicatesPaginated_no_cleanup_counterexample :
    ((fun p => p == "a/x.jpg") "b/x.jpg" = false) ∧
    ValidKeyOrder [(⟨"a/x.jpg", 5, "h", 0⟩ : ImageFile), ⟨"b/x.jpg", 5, "h", 0⟩]
      [⟨"h", 5, 2⟩] ∧
    ∃ g ∈ (findDuplicatesPaginated
        [(⟨"a/x.jpg", 5, "h", 0⟩ : ImageFile), ⟨"b/x.jpg", 5, "h", 0⟩]
        [⟨"h", 5, 2⟩] 0 10).1,
      (⟨"b/x.jpg", 5, "h", 0⟩ : ImageFile) ∈ g.files := by
  refine ⟨by decide, ⟨by decide, by decide⟩, ?_⟩
  decide

theorem findDuplicatesPaginated_groups (db : List ImageFile)
    (ko : List HashSizeCount) (offset limit : Nat) :
    (findDuplicatesPaginated db ko offset limit).1 =
      ((ko.drop offset).take limit).filterMap (pageGroup db) := by
  unfold findDuplicatesPaginated
  by_cases hoff : ko.length ≤ offset
  · rw [if_pos hoff]
    have hnil : ko.drop offset = [] := List.drop_eq_nil_iff.mpr hoff
    rw [hnil]
    simp
  · rw [if_neg hoff]

theorem findDuplicatesPaginated_totals_eq (db : List ImageFile)
    (ko : List HashSizeCount) (offset limit : Nat) :
    (findDuplicatesPaginated db ko offset limit).2 =
      (ko.length, (ko.map (fun hs => hs.count)).sum) := by
  unfold findDuplicatesPaginated
  by_cases hoff : ko.length ≤ offset
  · rw [if_pos hoff]
  · rw [if_neg hoff]

/-- The shape of a group emitted by `pageGroup`. -/
theorem pageGroup_some (db : List ImageFile) (hs : HashSizeCount)
    (g : DuplicateGroup) (h : pageGroup db hs = some g) :
    g.hash = hs.hash ∧ g.size = hs.size ∧
      g.files = filesForKey db hs.hash hs.size ∧ 1 < g.files.length := by
  unfold pageGroup at h
  dsimp only at h
  by_cases hlen : 1 < (filesForKey db hs.hash hs.size).length
  · rw [if_pos hlen] at h
    cases h
    exact ⟨rfl, rfl, rfl, hlen⟩
  · rw [if_neg hlen] at h
    cases h

/-- C5: every group returned by either duplicate-listing operation has
at least 2 member files, and a `(digest,size)` key whose surviving
members number fewer than 2 yields no group from `findDuplicates`. -/
theorem duplicate_groups_at_least_two :
    (∀ (ex : String → Bool) (db : List ImageFile),
      ∀ g ∈ (findDuplicates ex db).1, 2 ≤ g.files.length) ∧
    (∀ (db : List ImageFile) (ko : List HashSizeCount) (offset limit : Nat),
      ∀ g ∈ (findDuplicatesPaginated db ko offset limit).1,
        2 ≤ g.files.length) ∧
    (∀ (ex : String → Bool) (db : List ImageFile) (h : String) (s : Int),
      ((filesForKey db h s).filter (fun f => ex f.path)).length < 2 →
      ∀ g ∈ (findDuplicates ex db).1, ¬(g.hash = h ∧ g.size = s)) := by
  refine ⟨?_, ?_, ?_⟩
  · intro ex db g hg
    rcases findDuplicates_group_spec ex db g hg with ⟨hs, _, _, _, _, hlen⟩
    omega
  · intro db ko offset limit g hg
    rw [findDuplicatesPaginated_groups] at hg
    rcases List.mem_filterMap.mp hg with ⟨hs, _, hmk⟩
    rcases pageGroup_some db hs g hmk with ⟨_, _, _, hlen⟩
    omega
  · intro ex db h s hsmall g hg ⟨hh, hsz⟩
    rcases findDuplicates_group_spec ex db g hg with
      ⟨hs, _, hgh, hgs, hfiles, hlen⟩
    rw [hfiles] at hlen
    rw [hgh] at hh
    rw [hgs] at hsz
    rw [hh, hsz] at hlen
    omega

theorem duplicate_groups_at_least_two_witness :
    (DuplicateGroup.mk "h" 5
        [⟨"a/x.jpg", 5, "h", 0⟩, ⟨"b/x.jpg", 5, "h", 0⟩] ∈
      (findDuplicates (fun _ => true)
        [(⟨"a/x.jpg", 5, "h", 0⟩ : ImageFile), ⟨"b/x.jpg", 5, "h", 0⟩]).1) ∧
    2 ≤ (DuplicateGroup.mk "h" 5
        [⟨"a/x.jpg", 5, "h", 0⟩, ⟨"b/x.jpg", 5, "h", 0⟩]).files.length :=
  ⟨by decide,
    duplicate_groups_at_least_two.1 (fun _ => true)
      [⟨"a/x.jpg", 5, "h", 0⟩, ⟨"b/x.jpg", 5, "h", 0⟩]
      (DuplicateGroup.mk "h" 5
        [⟨"a/x.jpg", 5, "h", 0⟩, ⟨"b/x.jpg", 5, "h", 0⟩])
      (by decide)⟩

/-- C9: the paginated listing reports, for every offset and limit, a
total group count equal to the number of `(digest,size)` keys with more
than one index record and a total file count equal to the sum of record
counts over all those keys, both computed from the grouped key query
alone. -/
theorem findDuplicatesPaginated_totals (db : List ImageFile)
    (ko : List HashSizeCount) (hko : ValidKeyOrder db ko)
    (offset limit : Nat) :
    (findDuplicatesPaginated db ko offset limit).2.1 =
        ((db.map recordKey).dedup.filter (fun k => 1 < keyCount db k)).length ∧
    (findDuplicatesPaginated db ko offset limit).2.2 =
        (((db.map recordKey).dedup.filter
            (fun k => 1 < keyCount db k)).map (keyCount db)).sum := by
  have h2 := findDuplicatesPaginated_totals_eq db ko offset limit
  constructor
  · have h1 : (findDuplicatesPaginated db ko offset limit).2.1 = ko.length := by
      rw [h2]
    rw [h1, hko.1.length_eq]
    unfold groupCounts
    rw [List.length_map]
  · have h1 : (findDuplicatesPaginated db ko offset limit).2.2 =
        (ko.map (fun hs => hs.count)).sum := by
      rw [h2]
    rw [h1, (hko.1.map (fun hs => hs.count)).sum_eq]
    unfold groupCounts
    rw [List.map_map]
    rfl

theorem findDuplicatesPaginated_totals_witness :
    ValidKeyOrder [(⟨"a/x.jpg", 5, "h", 0⟩ : ImageFile), ⟨"b/x.jpg", 5, "h", 0⟩]
        [⟨"h", 5, 2⟩] ∧
    ((findDuplicatesPaginated
        [(⟨"a/x.jpg", 5, "h", 0⟩ : ImageFile), ⟨"b/x.jpg", 5, "h", 0⟩]
        [⟨"h", 5, 2⟩] 0 50).2.1 =
      ((([(⟨"a/x.jpg", 5, "h", 0⟩ : ImageFile),
          ⟨"b/x.jpg", 5, "h", 0⟩]).map recordKey).dedup.filter
        (fun k => 1 < keyCount
          [(⟨"a/x.jpg", 5, "h", 0⟩ : ImageFile), ⟨"b/x.jpg", 5, "h", 0⟩]
          k)).length) :=
  ⟨⟨by decide, by decide⟩,
    (findDuplicatesPaginated_totals
      [(⟨"a/x.jpg", 5, "h", 0⟩ : ImageFile), ⟨"b/x.jpg", 5, "h", 0⟩]
      [⟨"h", 5, 2⟩] ⟨by decide, by decide⟩ 0 50).1⟩

/-- C6 (amended): over an unchanged index, whenever the *same* observed
key row order (any size-descending order of the grouped keys) is used
for both calls, consecutive pages of `findDuplicatesPaginated` are
disjoint, concatenate in order, and together equal the full unpaginated
listing.  The code itself imposes only `ORDER BY size DESC` with no
tie-break, so equality of the observed row orders across the two calls
is a hypothesis, not a guarantee (see the counterexample). -/
theorem findDuplicatesPaginated_pages_consistent (db : List ImageFile)
    (ko : List HashSizeCount) (hko : ValidKeyOrder db ko) (n m k : Nat)
    (hk : ko.length ≤ k) :
    ((findDuplicatesPaginated db ko 0 n).1 ++
        (findDuplicatesPaginated db ko n m).1 =
      (findDuplicatesPaginated db ko 0 (n + m)).1) ∧
    ((findDuplicatesPaginated db ko 0 k).1 = ko.filterMap (pageGroup db)) ∧
    (∀ g1 ∈ (findDuplicatesPaginated db ko 0 n).1,
     ∀ g2 ∈ (findDuplicatesPaginated db ko n m).1, g1 ≠ g2) := by
  have hggs : ∀ off lim, (findDuplicatesPaginated db ko off lim).1 =
      ((ko.drop off).take lim).filterMap (pageGroup db) :=
    fun off lim => findDuplicatesPaginated_groups db ko off lim
  refine ⟨?_, ?_, ?_⟩
  · rw [hggs, hggs, hggs, ← List.filterMap_append, List.drop_zero,
      ← List.take_add]
  · rw [hggs, List.drop_zero, List.take_of_length_le hk]
  · intro g1 hg1 g2 hg2 heq
    rw [hggs, List.drop_zero] at hg1
    rw [hggs] at hg2
    rcases List.mem_filterMap.mp hg1 with ⟨hs1, hm1, hmk1⟩
    rcases List.mem_filterMap.mp hg2 with ⟨hs2, hm2, hmk2⟩
    have hsp1 := pageGroup_some db hs1 g1 hmk1
    have hsp2 := pageGroup_some db hs2 g2 hmk2
    have hkeys : (hs1.hash, hs1.size) = (hs2.hash, hs2.size) := by
      rw [← hsp1.1, ← hsp1.2.1, ← hsp2.1, ← hsp2.2.1, heq]
    have hnodup : (ko.map (fun hs => (hs.hash, hs.size))).Nodup :=
      ((hko.1.map (fun hs => (hs.hash, hs.size))).nodup_iff).mpr
        (groupCounts_keys_nodup db)
    have hd : List.Disjoint ((ko.map (fun hs => (hs.hash, hs.size))).take n)
        ((ko.map (fun hs => (hs.hash, hs.size))).drop n) :=
      List.disjoint_take_drop hnodup (Nat.le_refl n)
    have hin1 : (hs1.hash, hs1.size) ∈
        (ko.map (fun hs => (hs.hash, hs.size))).take n := by
      rw [← List.map_take]
      exact List.mem_map.mpr ⟨hs1, hm1, rfl⟩
    have hin2 : (hs2.hash, hs2.size) ∈
        (ko.map (fun hs => (hs.hash, hs.size))).drop n := by
      rw [← List.map_drop]
      exact List.mem_map.mpr ⟨hs2, List.take_subset m _ hm2, rfl⟩
    rw [hkeys] at hin1
    exact hd hin1 hin2

theorem findDuplicatesPaginated_pages_consistent_witness :
    ValidKeyOrder
        [(⟨"a/1.jpg", 10, "h1", 0⟩ : ImageFile), ⟨"b/1.jpg", 10, "h1", 0⟩,
         ⟨"a/2.jpg", 10, "h2", 0⟩, ⟨"b/2.jpg", 10, "h2", 0⟩]
        [⟨"h1", 10, 2⟩, ⟨"h2", 10, 2⟩] ∧
    ([⟨"h1", 10, 2⟩, ⟨"h2", 10, 2⟩] : List HashSizeCount).length ≤ 100 ∧
    ((findDuplicatesPaginated
        [(⟨"a/1.jpg", 10, "h1", 0⟩ : ImageFile), ⟨"b/1.jpg", 10, "h1", 0⟩,
         ⟨"a/2.jpg", 10, "h2", 0⟩, ⟨"b/2.jpg", 10, "h2", 0⟩]
        [⟨"h1", 10, 2⟩, ⟨"h2", 10, 2⟩] 0 50).1 ++
      (findDuplicatesPaginated
        [(⟨"a/1.jpg", 10, "h1", 0⟩ : ImageFile), ⟨"b/1.jpg", 10, "h1", 0⟩,
         ⟨"a/2.jpg", 10, "h2", 0⟩, ⟨"b/2.jpg", 10, "h2", 0⟩]
        [⟨"h1", 10, 2⟩, ⟨"h2", 10, 2⟩] 50 50).1 =
      (findDuplicatesPaginated
        [(⟨"a/1.jpg", 10, "h1", 0⟩ : ImageFile), ⟨"b/1.jpg", 10, "h1", 0⟩,
         ⟨"a/2.jpg", 10, "h2", 0⟩, ⟨"b/2.jpg", 10, "h2", 0⟩]
        [⟨"h1", 10, 2⟩, ⟨"h2", 10, 2⟩] 0 (50 + 50)).1) :=
  ⟨⟨by decide, by decide⟩, by decide,
    (findDuplicatesPaginated_pages_consistent
      [(⟨"a/1.jpg", 10, "h1", 0⟩ : ImageFile), ⟨"b/1.jpg", 10, "h1", 0⟩,
       ⟨"a/2.jpg", 10, "h2", 0⟩, ⟨"b/2.jpg", 10, "h2", 0⟩]
      [⟨"h1", 10, 2⟩, ⟨"h2", 10, 2⟩] ⟨by decide, by decide⟩ 50 50 100
      (by decide)).1⟩

/-- C6 counterexample: the grouped query constrains the key order only
to size-descending, so with two equal-size duplicate keys two different
observed orders are both valid; the page at `offset=0, limit=1` differs
between them, and the first page under one order overlaps the second
page under the other.  Hence the code provides no stable deterministic
tie-break. -/
theorem findDuplicatesPaginated_order_counterexample :
    ValidKeyOrder
        [(⟨"a/1.jpg", 10, "h1", 0⟩ : ImageFile), ⟨"b/1.jpg", 10, "h1", 0⟩,
         ⟨"a/2.jpg", 10, "h2", 0⟩, ⟨"b/2.jpg", 10, "h2", 0⟩]
        [⟨"h1", 10, 2⟩, ⟨"h2", 10, 2⟩] ∧
    ValidKeyOrder
        [(⟨"a/1.jpg", 10, "h1", 0⟩ : ImageFile), ⟨"b/1.jpg", 10, "h1", 0⟩,
         ⟨"a/2.jpg", 10, "h2", 0⟩, ⟨"b/2.jpg", 10, "h2", 0⟩]
        [⟨"h2", 10, 2⟩, ⟨"h1", 10, 2⟩] ∧
    ((findDuplicatesPaginated
        [(⟨"a/1.jpg", 10, "h1", 0⟩ : ImageFile), ⟨"b/1.jpg", 10, "h1", 0⟩,
         ⟨"a/2.jpg", 10, "h2", 0⟩, ⟨"b/2.jpg", 10, "h2", 0⟩]
        [⟨"h1", 10, 2⟩, ⟨"h2", 10, 2⟩] 0 1).1 ≠
      (findDuplicatesPaginated
        [(⟨"a/1.jpg", 10, "h1", 0⟩ : ImageFile), ⟨"b/1.jpg", 10, "h1", 0⟩,
         ⟨"a/2.jpg", 10, "h2", 0⟩, ⟨"b/2.jpg", 10, "h2", 0⟩]
        [⟨"h2", 10, 2⟩, ⟨"h1", 10, 2⟩] 0 1).1) ∧
    ∃ g, g ∈ (findDuplicatesPaginated
        [(⟨"a/1.jpg", 10, "h1", 0⟩ : ImageFile), ⟨"b/1.jpg", 10, "h1", 0⟩,
         ⟨"a/2.jpg", 10, "h2", 0⟩, ⟨"b/2.jpg", 10, "h2", 0⟩]
        [⟨"h1", 10, 2⟩, ⟨"h2", 10, 2⟩] 0 1).1 ∧
      g ∈ (findDuplicatesPaginated
        [(⟨"a/1.jpg", 10, "h1", 0⟩ : ImageFile), ⟨"b/1.jpg", 10, "h1", 0⟩,
         ⟨"a/2.jpg", 10, "h2", 0⟩, ⟨"b/2.jpg", 10, "h2", 0⟩]
        [⟨"h2", 10, 2⟩, ⟨"h1", 10, 2⟩] 1 1).1 := by
  refine ⟨⟨by decide, by decide⟩, ⟨by decide, by decide⟩, by decide, ?_⟩
  decide

theorem strBad_asym (a b : String) :
    decide (b < a) = true → decide (a < b) = false := by
  intro h
  rw [decide_eq_true_eq] at h
  rw [decide_eq_false_iff_not]
  exact lt_asymm h

theorem strBad_trans (a b c : String) :
    decide (b < a) = false → decide (c < b) = false →
      decide (c < a) = false := by
  intro h1 h2
  rw [decide_eq_false_iff_not] at h1 h2
  rw [decide_eq_false_iff_not]
  exact not_lt.mpr (le_trans (not_lt.mp h1) (not_lt.mp h2))

theorem sortStrings_perm (l : List String) : (sortStrings l).Perm l :=
  exchSort_perm _ l

theorem sortStrings_sorted (l : List String) :
    (sortStrings l).Sorted (· ≤ ·) := by
  have hp := exchSort_pairwise (fun a b : String => decide (b < a))
    strBad_asym strBad_trans l
  exact hp.imp (fun h => not_lt.mp (decide_eq_false_iff_not.mp h))

/-- `sortStrings` applied to any enumeration of a folder set yields the
canonical lexicographically sorted list of that set. -/
theorem sortStrings_canonical (fs gf : List String) (hp : fs.Perm gf) :
    sortStrings fs = List.insertionSort (· ≤ ·) gf :=
  List.eq_of_perm_of_sorted
    ((sortStrings_perm fs).trans (hp.trans (List.perm_insertionSort _ gf).symm))
    (sortStrings_sorted fs) (List.sorted_insertionSort _ gf)

/-- C3: for every duplicate group, whatever (arbitrary) enumeration
orders the two Go map iterations produce for the group's distinct-folder
set, the pattern identity computed by the pattern-listing operation
equals the one computed by the batch-apply operation, and both equal the
lexicographically sorted pipe-joined folder list demanded by the spec. -/
theorem pattern_identity_agree (dir : String → String) (g : DuplicateGroup)
    (fs1 fs2 : List String)
    (h1 : fs1.Perm (groupFolders dir g)) (h2 : fs2.Perm (groupFolders dir g)) :
    listingPatternID fs1 = batchPatternID fs2 ∧
    listingPatternID fs1 = specPatternID dir g := by
  have e1 := sortStrings_canonical fs1 (groupFolders dir g) h1
  have e2 := sortStrings_canonical fs2 (groupFolders dir g) h2
  constructor
  · unfold listingPatternID batchPatternID
    rw [e1, e2]
  · unfold listingPatternID specPatternID createPatternID
    rw [e1]

theorem pattern_identity_agree_witness :
    (["b", "a"].Perm (groupFolders dirName
        ⟨"h", 5, [⟨"b/x.jpg", 5, "h", 0⟩, ⟨"a/x.jpg", 5, "h", 0⟩]⟩) ∧
     ["a", "b"].Perm (groupFolders dirName
        ⟨"h", 5, [⟨"b/x.jpg", 5, "h", 0⟩, ⟨"a/x.jpg", 5, "h", 0⟩]⟩)) ∧
    (listingPatternID ["b", "a"] = batchPatternID ["a", "b"] ∧
     listingPatternID ["b", "a"] = specPatternID dirName
        ⟨"h", 5, [⟨"b/x.jpg", 5, "h", 0⟩, ⟨"a/x.jpg", 5, "h", 0⟩]⟩) :=
  ⟨⟨by decide, by decide⟩,
    pattern_identity_agree dirName
      ⟨"h", 5, [⟨"b/x.jpg", 5, "h", 0⟩, ⟨"a/x.jpg", 5, "h", 0⟩]⟩
      ["b", "a"] ["a", "b"] (by decide) (by decide)⟩

theorem patBad_asym (p q : FolderPattern) :
    decide (p.duplicateCount < q.duplicateCount) = true →
      decide (q.duplicateCount < p.duplicateCount) = false := by
  intro h
  rw [decide_eq_true_eq] at h
  rw [decide_eq_false_iff_not]
  omega

theorem patBad_trans (p q r : FolderPattern) :
    decide (p.duplicateCount < q.duplicateCount) = false →
      decide (q.duplicateCount < r.duplicateCount) = false →
      decide (p.duplicateCount < r.duplicateCount) = false := by
  intro h1 h2
  rw [decide_eq_false_iff_not] at h1 h2
  rw [decide_eq_false_iff_not]
  omega

/-- C8 (amended): the folder-pattern listing returns the aggregated
patterns sorted by descending contributing-group count, as a permutation
of the aggregated pattern set, for *any* iteration order of the pattern
map; but the relative order of patterns with equal counts is inherited
from the (arbitrary) map iteration order, so it is not deterministic
across calls (see the counterexample). -/
theorem folder_patterns_sorted (dir : String → String)
    (groups : List DuplicateGroup) (enum : List FolderPattern)
    (henum : enum.Perm (buildPatterns dir groups)) :
    (sortPatternsByCount enum).Perm (buildPatterns dir groups) ∧
    (sortPatternsByCount enum).Pairwise
      (fun p q => q.duplicateCount ≤ p.duplicateCount) := by
  constructor
  · exact (exchSort_perm _ enum).trans henum
  · have hp := exchSort_pairwise
      (fun p q : FolderPattern => decide (p.duplicateCount < q.duplicateCount))
      patBad_asym patBad_trans enum
    exact hp.imp (fun h => Nat.not_lt.mp (decide_eq_false_iff_not.mp h))

theorem folder_patterns_sorted_witness :
    ([(⟨"b", ["b"], 1, 2⟩ : FolderPattern), ⟨"a", ["a"], 1, 2⟩].Perm
      (buildPatterns dirName
        [⟨"h1", 5, [⟨"a/1.jpg", 5, "h1", 0⟩, ⟨"a/2.jpg", 5, "h1", 0⟩]⟩,
         ⟨"h2", 6, [⟨"b/1.jpg", 6, "h2", 0⟩, ⟨"b/2.jpg", 6, "h2", 0⟩]⟩])) ∧
    ((sortPatternsByCount
        [(⟨"b", ["b"], 1, 2⟩ : FolderPattern), ⟨"a", ["a"], 1, 2⟩]).Perm
      (buildPatterns dirName
        [⟨"h1", 5, [⟨"a/1.jpg", 5, "h1", 0⟩, ⟨"a/2.jpg", 5, "h1", 0⟩]⟩,
         ⟨"h2", 6, [⟨"b/1.jpg", 6, "h2", 0⟩, ⟨"b/2.jpg", 6, "h2", 0⟩]⟩]) ∧
     (sortPatternsByCount
        [(⟨"b", ["b"], 1, 2⟩ : FolderPattern), ⟨"a", ["a"], 1, 2⟩]).Pairwise
       (fun p q => q.duplicateCount ≤ p.duplicateCount)) :=
  ⟨by decide,
    folder_patterns_sorted dirName
      [⟨"h1", 5, [⟨"a/1.jpg", 5, "h1", 0⟩, ⟨"a/2.jpg", 5, "h1", 0⟩]⟩,
       ⟨"h2", 6, [⟨"b/1.jpg", 6, "h2", 0⟩, ⟨"b/2.jpg", 6, "h2", 0⟩]⟩]
      [⟨"b", ["b"], 1, 2⟩, ⟨"a", ["a"], 1, 2⟩] (by decide)⟩

/-- C8 counterexample: two patterns with equal contributing-group
counts; both enumeration orders are valid iterations of the same
`patternMap`, yet `sortPatternsByCount` returns them in different
orders, so the output order over a fixed duplicate set is not
deterministic. -/
theorem folder_patterns_order_counterexample :
    ([(⟨"a", ["a"], 1, 2⟩ : FolderPattern), ⟨"b", ["b"], 1, 2⟩].Perm
      (buildPatterns dirName
        [⟨"h1", 5, [⟨"a/1.jpg", 5, "h1", 0⟩, ⟨"a/2.jpg", 5, "h1", 0⟩]⟩,
         ⟨"h2", 6, [⟨"b/1.jpg", 6, "h2", 0⟩, ⟨"b/2.jpg", 6, "h2", 0⟩]⟩])) ∧
    ([(⟨"b", ["b"], 1, 2⟩ : FolderPattern), ⟨"a", ["a"], 1, 2⟩].Perm
      (buildPatterns dirName
        [⟨"h1", 5, [⟨"a/1.jpg", 5, "h1", 0⟩, ⟨"a/2.jpg", 5, "h1", 0⟩]⟩,
         ⟨"h2", 6, [⟨"b/1.jpg", 6, "h2", 0⟩, ⟨"b/2.jpg", 6, "h2", 0⟩]⟩])) ∧
    sortPatternsByCount [(⟨"a", ["a"], 1, 2⟩ : FolderPattern), ⟨"b", ["b"], 1, 2⟩] ≠
      sortPatternsByCount [(⟨"b", ["b"], 1, 2⟩ : FolderPattern), ⟨"a", ["a"], 1, 2⟩] := by
  refine ⟨by decide, by decide, ?_⟩
  decide

theorem bool_not_or_comm (a b : Bool) : ((!b && !a) = !(a || b)) := by
  cases a <;> cases b <;> rfl

theorem disposal_foldl_attempted (d : String → Option String) :
    ∀ (paths : List String) (st : DisposalState),
      (paths.foldl (disposeOne d) st).attempted = st.attempted ++ paths := by
  intro paths
  induction paths with
  | nil => intro st; simp
  | cons p ps ih =>
    intro st
    rw [List.foldl_cons, ih]
    cases hd : d p <;>
      simp [disposeOne, hd, List.append_assoc]

theorem disposal_foldl_success (d : String → Option String) :
    ∀ (paths : List String) (st : DisposalState),
      (paths.foldl (disposeOne d) st).success =
        st.success + (paths.filter (fun p => (d p).isNone)).length := by
  intro paths
  induction paths with
  | nil => intro st; simp
  | cons p ps ih =>
    intro st
    rw [List.foldl_cons, ih, List.filter_cons]
    cases hd : d p <;> simp [disposeOne, hd] <;> omega

theorem disposal_foldl_failed (d : String → Option String) :
    ∀ (paths : List String) (st : DisposalState),
      (paths.foldl (disposeOne d) st).failed =
        st.failed + (paths.filter (fun p => (d p).isSome)).length := by
  intro paths
  induction paths with
  | nil => intro st; simp
  | cons p ps ih =>
    intro st
    rw [List.foldl_cons, ih, List.filter_cons]
    cases hd : d p <;> simp [disposeOne, hd] <;> omega

theorem disposal_foldl_failedFiles (d : String → Option String) :
    ∀ (paths : List String) (st : DisposalState),
      (paths.foldl (disposeOne d) st).failedFiles =
        st.failedFiles ++ (paths.filter (fun p => (d p).isSome)).map
          (fun p => baseName p ++ ": " ++ ((d p).getD "")) := by
  intro paths
  induction paths with
  | nil => intro st; simp
  | cons p ps ih =>
    intro st
    rw [List.foldl_cons, ih, List.filter_cons]
    cases hd : d p <;> simp [disposeOne, hd, List.append_assoc]

theorem disposal_foldl_db (d : String → Option String) :
    ∀ (paths : List String) (st : DisposalState),
      (paths.foldl (disposeOne d) st).db =
        st.db.filter (fun r =>
          !(((paths.filter (fun p => (d p).isNone)).map toSlash).contains
            r.path)) := by
  intro paths
  induction paths with
  | nil =>
    intro st
    simp
  | cons p ps ih =>
    intro st
    rw [List.foldl_cons, ih, List.filter_cons]
    cases hd : d p
    · -- success: the row filter for p composes with the later ones
      simp only [disposeOne, hd, Option.isNone_none, if_pos]
      rw [List.filter_filter]
      apply List.filter_congr
      intro r _
      simp only [List.map_cons, List.contains_cons]
      exact bool_not_or_comm _ _
    · simp [disposeOne, hd]

/-- C7 (amended): for a non-empty path list, `handleDeleteFiles`
attempts every path (so no subset of failures aborts the batch); each
successful disposal removes the rows keyed by the slash-normalized path
and bumps the success count; each failure leaves the table untouched for
that path, bumps the failure count, and appends the path's *base name*
(not the full path, which is the corrected part of the claim) with the
reason to the failure list; the returned aggregates are exactly these
counts. -/
theorem handleDeleteFiles_spec (dispose : String → Option String)
    (db : List ImageFile) (paths : List String) (_hne : paths ≠ []) :
    (handleDeleteFiles dispose db paths).attempted = paths ∧
    (handleDeleteFiles dispose db paths).success =
      (paths.filter (fun p => (dispose p).isNone)).length ∧
    (handleDeleteFiles dispose db paths).failed =
      (paths.filter (fun p => (dispose p).isSome)).length ∧
    (handleDeleteFiles dispose db paths).failedFiles =
      (paths.filter (fun p => (dispose p).isSome)).map
        (fun p => baseName p ++ ": " ++ ((dispose p).getD "")) ∧
    (handleDeleteFiles dispose db paths).db =
      db.filter (fun r =>
        !(((paths.filter (fun p => (dispose p).isNone)).map toSlash).contains
          r.path)) := by
  unfold handleDeleteFiles
  refine ⟨?_, ?_, ?_, ?_, ?_⟩
  · rw [disposal_foldl_attempted]
    simp
  · rw [disposal_foldl_success]
    simp
  · rw [disposal_foldl_failed]
    simp
  · rw [disposal_foldl_failedFiles]
    simp
  · rw [disposal_foldl_db]

theorem handleDeleteFiles_spec_witness :
    (["a/x.jpg", "a/y.jpg"] ≠ ([] : List String)) ∧
    ((handleDeleteFiles
        (fun p => if p == "a/y.jpg" then some "eperm" else none)
        [(⟨"a/x.jpg", 5, "h", 0⟩ : ImageFile), ⟨"a/y.jpg", 6, "h2", 0⟩]
        ["a/x.jpg", "a/y.jpg"]).attempted = ["a/x.jpg", "a/y.jpg"] ∧
     (handleDeleteFiles
        (fun p => if p == "a/y.jpg" then some "eperm" else none)
        [(⟨"a/x.jpg", 5, "h", 0⟩ : ImageFile), ⟨"a/y.jpg", 6, "h2", 0⟩]
        ["a/x.jpg", "a/y.jpg"]).success =
      ((["a/x.jpg", "a/y.jpg"].filter (fun p =>
        ((fun p => if p == "a/y.jpg" then some "eperm" else none) p).isNone)).length) ∧
     (handleDeleteFiles
        (fun p => if p == "a/y.jpg" then some "eperm" else none)
        [(⟨"a/x.jpg", 5, "h", 0⟩ : ImageFile), ⟨"a/y.jpg", 6, "h2", 0⟩]
        ["a/x.jpg", "a/y.jpg"]).failed =
      ((["a/x.jpg", "a/y.jpg"].filter (fun p =>
        ((fun p => if p == "a/y.jpg" then some "eperm" else none) p).isSome)).length) ∧
     (handleDeleteFiles
        (fun p => if p == "a/y.jpg" then some "eperm" else none)
        [(⟨"a/x.jpg", 5, "h", 0⟩ : ImageFile), ⟨"a/y.jpg", 6, "h2", 0⟩]
        ["a/x.jpg", "a/y.jpg"]).failedFiles =
      ((["a/x.jpg", "a/y.jpg"].filter (fun p =>
        ((fun p => if p == "a/y.jpg" then some "eperm" else none) p).isSome)).map
        (fun p => baseName p ++ ": " ++
          (((fun p => if p == "a/y.jpg" then some "eperm" else none) p).getD ""))) ∧
     (handleDeleteFiles
        (fun p => if p == "a/y.jpg" then some "eperm" else none)
        [(⟨"a/x.jpg", 5, "h", 0⟩ : ImageFile), ⟨"a/y.jpg", 6, "h2", 0⟩]
        ["a/x.jpg", "a/y.jpg"]).db =
      ([(⟨"a/x.jpg", 5, "h", 0⟩ : ImageFile), ⟨"a/y.jpg", 6, "h2", 0⟩].filter
        (fun r => !(((["a/x.jpg", "a/y.jpg"].filter (fun p =>
            ((fun p => if p == "a/y.jpg" then some "eperm" else none) p).isNone)).map
          toSlash).contains r.path)))) :=
  ⟨by decide,
    handleDeleteFiles_spec
      (fun p => if p == "a/y.jpg" then some "eperm" else none)
      [(⟨"a/x.jpg", 5, "h", 0⟩ : ImageFile), ⟨"a/y.jpg", 6, "h2", 0⟩]
      ["a/x.jpg", "a/y.jpg"] (by decide)⟩

/-- C7 counterexample: on a failure the handler appends the file's base
name with the reason - the full path with its reason is *not* in the
failure list. -/
theorem handleDeleteFiles_basename_counterexample :
    (handleDeleteFiles (fun _ => some "eperm") [] ["a/x.jpg"]).failedFiles =
        ["x.jpg: eperm"] ∧
    ("a/x.jpg: eperm" ∉
      (handleDeleteFiles (fun _ => some "eperm") [] ["a/x.jpg"]).failedFiles) := by
  refine ⟨by decide, ?_⟩
  decide

theorem batchDeleteGroup_eq_foldl (dispose : String → Option String)
    (dir : String → String) (ruleMap : List (String × String))
    (st : DisposalState) (g : DuplicateGroup) :
    batchDeleteGroup dispose dir ruleMap st g =
      (rulePaths dir ruleMap g).foldl (disposeOne dispose) st := by
  unfold batchDeleteGroup rulePaths
  dsimp only
  cases hr : ruleLookup ruleMap
      (createPatternID (sortStrings (groupFolders dir g))) with
  | none => rfl
  | some keepFolder =>
    dsimp only
    show g.files.foldl _ st = _
    induction g.files generalizing st with
    | nil => rfl
    | cons f fs ih =>
      rw [List.foldl_cons, List.filter_cons]
      by_cases hf : (dir f.path == keepFolder) = true
      · have hnf : (!(dir f.path == keepFolder)) = false := by rw [hf]; rfl
        rw [hnf]
        simp only [Bool.false_eq_true, if_neg, not_false_iff, if_pos, hf]
        exact ih st
      · have hb : (dir f.path == keepFolder) = false := by
          cases hbb : (dir f.path == keepFolder)
          · rfl
          · exact absurd hbb hf
        have hnf : (!(dir f.path == keepFolder)) = true := by rw [hb]; rfl
        rw [hnf, if_pos rfl, if_neg hf, List.map_cons, List.foldl_cons]
        exact ih (disposeOne dispose st f.path)

theorem handleBatchDelete_eq_foldl (dispose : String → Option String)
    (dir : String → String) (ruleMap : List (String × String))
    (db : List ImageFile) (groups : List DuplicateGroup) :
    handleBatchDelete dispose dir ruleMap db groups =
      (batchPaths dir ruleMap groups).foldl (disposeOne dispose)
        ⟨db, 0, 0, [], []⟩ := by
  unfold handleBatchDelete batchPaths
  generalize (⟨db, 0, 0, [], []⟩ : DisposalState) = st
  induction groups generalizing st with
  | nil => rfl
  | cons g gs ih =>
    rw [List.foldl_cons, List.flatMap_cons, List.foldl_append,
      batchDeleteGroup_eq_foldl]
    exact ih _

/-- C4: in `handleBatchDelete`, the disposal attempts are exactly, in
order, the member files outside the kept folder of each group that has a
matching rule - a list that does not depend on the `dispose` outcomes,
so a failure on one file never prevents the attempts on the rest; a
group without a matching rule contributes no attempt; kept-folder files
are never attempted; and the rows removed from the table are exactly
those keyed by the slash-normalized path of a successfully disposed
file. -/
theorem handleBatchDelete_rule_semantics (dispose : String → Option String)
    (dir : String → String) (ruleMap : List (String × String))
    (db : List ImageFile) (groups : List DuplicateGroup) :
    (handleBatchDelete dispose dir ruleMap db groups).attempted =
        batchPaths dir ruleMap groups ∧
    (∀ g ∈ groups, ∀ keepFolder,
      ruleLookup ruleMap
          (createPatternID (sortStrings (groupFolders dir g))) =
            some keepFolder →
      rulePaths dir ruleMap g =
        (g.files.filter (fun f => !(dir f.path == keepFolder))).map
          (fun f => f.path)) ∧
    (∀ g ∈ groups,
      ruleLookup ruleMap
          (createPatternID (sortStrings (groupFolders dir g))) = none →
      rulePaths dir ruleMap g = []) ∧
    (handleBatchDelete dispose dir ruleMap db groups).db =
      db.filter (fun r =>
        !((((batchPaths dir ruleMap groups).filter
            (fun p => (dispose p).isNone)).map toSlash).contains r.path)) := by
  refine ⟨?_, ?_, ?_, ?_⟩
  · rw [handleBatchDelete_eq_foldl, disposal_foldl_attempted]
    simp
  · intro g _ keepFolder hk
    unfold rulePaths
    rw [hk]
  · intro g _ hk
    unfold rulePaths
    rw [hk]
  · rw [handleBatchDelete_eq_foldl, disposal_foldl_db]

theorem handleBatchDelete_rule_semantics_witness :
    ((handleBatchDelete
        (fun p => if p == "b/1.jpg" then some "eperm" else none) dirName
        [("b", "a")]
        [(⟨"b/1.jpg", 5, "h1", 0⟩ : ImageFile), ⟨"b/2.jpg", 5, "h1", 0⟩]
        [⟨"h1", 5, [⟨"b/1.jpg", 5, "h1", 0⟩, ⟨"b/2.jpg", 5, "h1", 0⟩]⟩,
         ⟨"h3", 7, [⟨"c/3.jpg", 7, "h3", 0⟩, ⟨"c/4.jpg", 7, "h3", 0⟩]⟩]).attempted =
      batchPaths dirName [("b", "a")]
        [⟨"h1", 5, [⟨"b/1.jpg", 5, "h1", 0⟩, ⟨"b/2.jpg", 5, "h1", 0⟩]⟩,
         ⟨"h3", 7, [⟨"c/3.jpg", 7, "h3", 0⟩, ⟨"c/4.jpg", 7, "h3", 0⟩]⟩]) ∧
    (rulePaths dirName [("b", "a")]
        ⟨"h1", 5, [⟨"b/1.jpg", 5, "h1", 0⟩, ⟨"b/2.jpg", 5, "h1", 0⟩]⟩ =
      (([(⟨"b/1.jpg", 5, "h1", 0⟩ : ImageFile), ⟨"b/2.jpg", 5, "h1", 0⟩].filter
          (fun f => !(dirName f.path == "a"))).map (fun f => f.path))) ∧
    (rulePaths dirName [("b", "a")]
        ⟨"h3", 7, [⟨"c/3.jpg", 7, "h3", 0⟩, ⟨"c/4.jpg", 7, "h3", 0⟩]⟩ = []) :=
  ⟨(handleBatchDelete_rule_semantics
      (fun p => if p == "b/1.jpg" then some "eperm" else none) dirName
      [("b", "a")]
      [(⟨"b/1.jpg", 5, "h1", 0⟩ : ImageFile), ⟨"b/2.jpg", 5, "h1", 0⟩]
      [⟨"h1", 5, [⟨"b/1.jpg", 5, "h1", 0⟩, ⟨"b/2.jpg", 5, "h1", 0⟩]⟩,
       ⟨"h3", 7, [⟨"c/3.jpg", 7, "h3", 0⟩, ⟨"c/4.jpg", 7, "h3", 0⟩]⟩]).1,
   (handleBatchDelete_rule_semantics
      (fun p => if p == "b/1.jpg" then some "eperm" else none) dirName
      [("b", "a")]
      [(⟨"b/1.jpg", 5, "h1", 0⟩ : ImageFile), ⟨"b/2.jpg", 5, "h1", 0⟩]
      [⟨"h1", 5, [⟨"b/1.jpg", 5, "h1", 0⟩, ⟨"b/2.jpg", 5, "h1", 0⟩]⟩,
       ⟨"h3", 7, [⟨"c/3.jpg", 7, "h3", 0⟩, ⟨"c/4.jpg", 7, "h3", 0⟩]⟩]).2.1
      ⟨"h1", 5, [⟨"b/1.jpg", 5, "h1", 0⟩, ⟨"b/2.jpg", 5, "h1", 0⟩]⟩
      (by decide) "a" (by decide),
   (handleBatchDelete_rule_semantics
      (fun p => if p == "b/1.jpg" then some "eperm" else none) dirName
      [("b", "a")]
      [(⟨"b/1.jpg", 5, "h1", 0⟩ : ImageFile), ⟨"b/2.jpg", 5, "h1", 0⟩]
      [⟨"h1", 5, [⟨"b/1.jpg", 5, "h1", 0⟩, ⟨"b/2.jpg", 5, "h1", 0⟩]⟩,
       ⟨"h3", 7, [⟨"c/3.jpg", 7, "h3", 0⟩, ⟨"c/4.jpg", 7, "h3", 0⟩]⟩]).2.2.1
      ⟨"h3", 7, [⟨"c/3.jpg", 7, "h3", 0⟩, ⟨"c/4.jpg", 7, "h3", 0⟩]⟩
      (by decide) (by decide)⟩

theorem decideStep_eq (hashFn : String → Option String) (db : List ImageFile)
    (acc : BatchDecision) (fi : FileInfo) :
    decideStep hashFn db acc fi =
      ⟨acc.toCreate ++ createOf hashFn db fi,
       acc.toUpdate ++ updateOf hashFn db fi,
       acc.hashCalls + callsOf db fi⟩ := by
  unfold decideStep createOf updateOf callsOf cacheHit
  cases hfind : findByPath db fi.normalizedPath with
  | some existing =>
    by_cases hhit : (existing.modTime == fi.modTime &&
        existing.size == fi.size) = true
    · simp [hhit]
    · cases hh : hashFn fi.path
      · simp [hhit, hh]
      · simp [hhit, hh]
  | none =>
    cases hh : hashFn fi.path
    · simp [hh]
    · simp [hh]

theorem batchDecide_eq (hashFn : String → Option String)
    (db : List ImageFile) (batch : List FileInfo) :
    batchDecide hashFn db batch =
      ⟨batch.flatMap (createOf hashFn db),
       batch.flatMap (updateOf hashFn db),
       (batch.map (callsOf db)).sum⟩ := by
  suffices h : ∀ (b : List FileInfo) (acc : BatchDecision),
      b.foldl (decideStep hashFn db) acc =
        ⟨acc.toCreate ++ b.flatMap (createOf hashFn db),
         acc.toUpdate ++ b.flatMap (updateOf hashFn db),
         acc.hashCalls + (b.map (callsOf db)).sum⟩ by
    unfold batchDecide
    rw [h]
    simp
  intro b
  induction b with
  | nil => intro acc; simp
  | cons fi rest ih =>
    intro acc
    rw [List.foldl_cons, decideStep_eq, ih]
    simp [List.append_assoc, Nat.add_assoc]

theorem applyUpdates_nil (db : List ImageFile) : applyUpdates db [] = db := by
  unfold applyUpdates
  have hid : saveRow ([] : List ImageFile) = fun r => r := by
    funext r
    rfl
  rw [hid, List.map_id']

/-- Every queued update or create row carries the metadata of the batch
file it came from. -/
theorem updateOf_mem (hashFn : String → Option String) (db : List ImageFile)
    (fi : FileInfo) (v : ImageFile) (hv : v ∈ updateOf hashFn db fi) :
    v.path = fi.normalizedPath ∧ v.size = fi.size ∧ v.modTime = fi.modTime := by
  unfold updateOf at hv
  cases hfind : findByPath db fi.normalizedPath with
  | some existing =>
    rw [hfind] at hv
    dsimp only at hv
    by_cases hhit : (existing.modTime == fi.modTime &&
        existing.size == fi.size) = true
    · rw [if_pos hhit] at hv
      cases hv
    · rw [if_neg hhit] at hv
      cases hh : hashFn fi.path with
      | none => rw [hh] at hv; cases hv
      | some h =>
        rw [hh] at hv
        rcases List.mem_singleton.mp hv with rfl
        exact ⟨rfl, rfl, rfl⟩
  | none =>
    rw [hfind] at hv
    dsimp only at hv
    cases hv

theorem createOf_mem (hashFn : String → Option String) (db : List ImageFile)
    (fi : FileInfo) (v : ImageFile) (hv : v ∈ createOf hashFn db fi) :
    v.path = fi.normalizedPath ∧ v.size = fi.size ∧ v.modTime = fi.modTime := by
  unfold createOf at hv
  cases hfind : findByPath db fi.normalizedPath with
  | some existing => rw [hfind] at hv; cases hv
  | none =>
    rw [hfind] at hv
    dsimp only at hv
    cases hh : hashFn fi.path with
    | none => rw [hh] at hv; cases hv
    | some h =>
      rw [hh] at hv
      rcases List.mem_singleton.mp hv with rfl
      exact ⟨rfl, rfl, rfl⟩

theorem updateOf_of_cacheHit (hashFn : String → Option String)
    (db : List ImageFile) (fi : FileInfo) (h : cacheHit db fi = true) :
    updateOf hashFn db fi = [] := by
  unfold cacheHit at h
  unfold updateOf
  cases hfind : findByPath db fi.normalizedPath with
  | some existing =>
    rw [hfind] at h
    dsimp only at h ⊢
    rw [if_pos h]
  | none =>
    rw [hfind] at h

theorem createOf_of_cacheHit (hashFn : String → Option String)
    (db : List ImageFile) (fi : FileInfo) (h : cacheHit db fi = true) :
    createOf hashFn db fi = [] := by
  unfold cacheHit at h
  unfold createOf
  cases hfind : findByPath db fi.normalizedPath with
  | some existing => rfl
  | none => rw [hfind] at h; cases h

/-- `find?` returns the distinguished element when it is the only
satisfying one. -/
theorem find?_eq_of_unique (l : List α) (pred : α → Bool) (c : α)
    (hc : c ∈ l) (hpc : pred c = true)
    (huniq : ∀ x ∈ l, pred x = true → x = c) :
    l.find? pred = some c := by
  induction l with
  | nil => cases hc
  | cons a as ih =>
    by_cases hpa : pred a = true
    · rw [List.find?_cons_of_pos as hpa]
      rw [huniq a (List.mem_cons_self a as) hpa]
    · rw [List.find?_cons_of_neg as hpa]
      rcases List.mem_cons.mp hc with rfl | hc2
      · exact absurd hpc hpa
      · exact ih hc2 (fun x hx hpx => huniq x (List.mem_cons_of_mem a hx) hpx)

theorem saveRow_path (U : List ImageFile) (r : ImageFile) :
    (saveRow U r).path = r.path := by
  unfold saveRow
  cases hu : U.find? (fun u => u.path == r.path) with
  | some u => simpa using List.find?_some hu
  | none => rfl

/-- Saving updates rewrites rows in place, so a path lookup finds the
saved version of exactly the row it found before. -/
theorem findByPath_applyUpdates (db U : List ImageFile) (p : String) :
    findByPath (applyUpdates db U) p = (findByPath db p).map (saveRow U) := by
  induction db with
  | nil => rfl
  | cons r rs ih =>
    unfold findByPath at ih ⊢
    unfold applyUpdates at ih ⊢
    rw [List.map_cons]
    by_cases hb : (r.path == p) = true
    · have hb2 : ((saveRow U r).path == p) = true := by
        rw [saveRow_path]; exact hb
      rw [@List.find?_cons_of_pos _ (fun r => r.path == p) (saveRow U r)
          (List.map (saveRow U) rs) hb2,
        @List.find?_cons_of_pos _ (fun r => r.path == p) r rs hb]
      rfl
    · have hb2 : ¬ ((saveRow U r).path == p) = true := by
        rw [saveRow_path]; exact hb
      rw [@List.find?_cons_of_neg _ (fun r => r.path == p) (saveRow U r)
          (List.map (saveRow U) rs) hb2,
        @List.find?_cons_of_neg _ (fun r => r.path == p) r rs hb]
      exact ih

theorem processBatch_eq (hashFn : String → Option String)
    (db : List ImageFile) (batch : List FileInfo) :
    processBatch hashFn db batch =
      (applyUpdates db (batch.flatMap (updateOf hashFn db)) ++
        batch.flatMap (createOf hashFn db),
       (batch.map (callsOf db)).sum) := by
  unfold processBatch
  rw [batchDecide_eq]

theorem processBatch_findByPath (hashFn : String → Option String)
    (db : List ImageFile) (batch : List FileInfo) (p : String) :
    findByPath (processBatch hashFn db batch).1 p =
      ((findByPath db p).map
          (saveRow (batch.flatMap (updateOf hashFn db)))).or
        ((batch.flatMap (createOf hashFn db)).find?
          (fun r => r.path == p)) := by
  rw [processBatch_eq]
  show findByPath (applyUpdates db _ ++ _) p = _
  unfold findByPath
  rw [List.find?_append]
  congr 1
  exact findByPath_applyUpdates db _ p

theorem processBatch_find_untouched (hashFn : String → Option String)
    (db : List ImageFile) (batch : List FileInfo) (p : String)
    (hp : ∀ fi ∈ batch, fi.normalizedPath ≠ p) :
    findByPath (processBatch hashFn db batch).1 p = findByPath db p := by
  rw [processBatch_findByPath]
  have hC : (batch.flatMap (createOf hashFn db)).find?
      (fun r => r.path == p) = none := by
    rw [List.find?_eq_none]
    intro c hc
    rcases List.mem_flatMap.mp hc with ⟨fi, hfi, hcf⟩
    have hcp := (createOf_mem hashFn db fi c hcf).1
    simp [hcp, hp fi hfi]
  rw [hC]
  cases hdb : findByPath db p with
  | none => rfl
  | some r =>
    have hdb2 : db.find? (fun r2 => r2.path == p) = some r := hdb
    have hrp : r.path = p := by simpa using List.find?_some hdb2
    have hsr : saveRow (batch.flatMap (updateOf hashFn db)) r = r := by
      unfold saveRow
      have hnone : (batch.flatMap (updateOf hashFn db)).find?
          (fun u => u.path == r.path) = none := by
        rw [List.find?_eq_none]
        intro u hu hmatch
        rcases List.mem_flatMap.mp hu with ⟨fi, hfi, huf⟩
        have hup := (updateOf_mem hashFn db fi u huf).1
        have : u.path = r.path := by simpa using hmatch
        exact hp fi hfi (by rw [← hup, this, hrp])
      rw [hnone]
    show (Option.map _ (some r)).or none = some r
    rw [Option.map, Option.or]
    rw [hsr]

theorem updateOf_some_miss (hashFn : String → Option String)
    (db : List ImageFile) (fi : FileInfo) (existing : ImageFile) (h : String)
    (hfind : findByPath db fi.normalizedPath = some existing)
    (hhit : (existing.modTime == fi.modTime &&
      existing.size == fi.size) = false)
    (hh : hashFn fi.path = some h) :
    updateOf hashFn db fi =
      [⟨fi.normalizedPath, fi.size, h, fi.modTime⟩] := by
  unfold updateOf
  rw [hfind]
  dsimp only
  rw [if_neg (by rw [hhit]; exact Bool.false_ne_true), hh]

theorem createOf_none_found (hashFn : String → Option String)
    (db : List ImageFile) (fi : FileInfo) (h : String)
    (hfind : findByPath db fi.normalizedPath = none)
    (hh : hashFn fi.path = some h) :
    createOf hashFn db fi =
      [⟨fi.normalizedPath, fi.size, h, fi.modTime⟩] := by
  unfold createOf
  rw [hfind]
  dsimp only
  rw [hh]

/-- After a batch is processed, every file of the batch is a cache hit
against the new table, provided the batch paths are distinct (one walk
visit per path) and hashing succeeded for the files that needed it. -/
theorem processBatch_cacheHit (hashFn : String → Option String)
    (db : List ImageFile) (batch : List FileInfo)
    (hnodup : (batch.map FileInfo.normalizedPath).Nodup)
    (hhash : ∀ fi ∈ batch, (hashFn fi.path).isSome) :
    ∀ fi ∈ batch, cacheHit (processBatch hashFn db batch).1 fi = true := by
  intro fi hfi
  have hinj : ∀ fi' ∈ batch, fi'.normalizedPath = fi.normalizedPath →
      fi' = fi :=
    fun fi' h' he => List.inj_on_of_nodup_map hnodup h' hfi he
  cases hfind : findByPath db fi.normalizedPath with
  | some existing =>
    have hexp : existing.path = fi.normalizedPath := by
      simpa using List.find?_some
        (show db.find? (fun r => r.path == fi.normalizedPath) = some existing
          from hfind)
    by_cases hhit : (existing.modTime == fi.modTime &&
        existing.size == fi.size) = true
    · -- already a cache hit: the row is untouched
      have hchit : cacheHit db fi = true := by
        unfold cacheHit
        rw [hfind]
        exact hhit
      have hsr : saveRow (batch.flatMap (updateOf hashFn db)) existing =
          existing := by
        unfold saveRow
        have hnone : (batch.flatMap (updateOf hashFn db)).find?
            (fun u => u.path == existing.path) = none := by
          rw [List.find?_eq_none]
          intro u hu hmatch
          rcases List.mem_flatMap.mp hu with ⟨fi', hfi', huf⟩
          have hup := (updateOf_mem hashFn db fi' u huf).1
          have hmatch2 : u.path = existing.path := by simpa using hmatch
          have hfieq : fi' = fi := hinj fi' hfi' (by rw [← hup, hmatch2, hexp])
          rw [hfieq, updateOf_of_cacheHit hashFn db fi hchit] at huf
          cases huf
        rw [hnone]
      have hafter : findByPath (processBatch hashFn db batch).1
          fi.normalizedPath = some existing := by
        rw [processBatch_findByPath, hfind, Option.map_some']
        show some (saveRow (batch.flatMap (updateOf hashFn db)) existing) =
          some existing
        rw [hsr]
      unfold cacheHit
      rw [hafter]
      exact hhit
    · -- stale row: the batch queued the refreshed row as an update
      rcases Option.isSome_iff_exists.mp (hhash fi hfi) with ⟨h, hh⟩
      have hhitf : (existing.modTime == fi.modTime &&
          existing.size == fi.size) = false := by
        cases hb : (existing.modTime == fi.modTime && existing.size == fi.size)
        · rfl
        · exact absurd hb hhit
      have hupd := updateOf_some_miss hashFn db fi existing h hfind hhitf hh
      have hUfind : (batch.flatMap (updateOf hashFn db)).find?
          (fun v => v.path == fi.normalizedPath) =
          some ⟨fi.normalizedPath, fi.size, h, fi.modTime⟩ := by
        apply find?_eq_of_unique
        · exact List.mem_flatMap.mpr ⟨fi, hfi, by
            rw [hupd]; exact List.mem_singleton_self _⟩
        · simp
        · intro x hx hpx
          rcases List.mem_flatMap.mp hx with ⟨fi', hfi', hxf⟩
          have hxp := (updateOf_mem hashFn db fi' x hxf).1
          have hxp2 : x.path = fi.normalizedPath := by simpa using hpx
          have hfieq : fi' = fi := hinj fi' hfi' (by rw [← hxp, hxp2])
          rw [hfieq, hupd] at hxf
          exact List.mem_singleton.mp hxf
      have hafter : findByPath (processBatch hashFn db batch).1
          fi.normalizedPath =
          some ⟨fi.normalizedPath, fi.size, h, fi.modTime⟩ := by
        rw [processBatch_findByPath, hfind, Option.map_some']
        show some (saveRow (batch.flatMap (updateOf hashFn db)) existing) = _
        unfold saveRow
        rw [hexp, hUfind]
      unfold cacheHit
      rw [hafter]
      simp
  | none =>
    -- new file: the batch queued the created row
    rcases Option.isSome_iff_exists.mp (hhash fi hfi) with ⟨h, hh⟩
    have hcre := createOf_none_found hashFn db fi h hfind hh
    have hCfind : (batch.flatMap (createOf hashFn db)).find?
        (fun v => v.path == fi.normalizedPath) =
        some ⟨fi.normalizedPath, fi.size, h, fi.modTime⟩ := by
      apply find?_eq_of_unique
      · exact List.mem_flatMap.mpr ⟨fi, hfi, by
          rw [hcre]; exact List.mem_singleton_self _⟩
      · simp
      · intro x hx hpx
        rcases List.mem_flatMap.mp hx with ⟨fi', hfi', hxf⟩
        have hxp := (createOf_mem hashFn db fi' x hxf).1
        have hxp2 : x.path = fi.normalizedPath := by simpa using hpx
        have hfieq : fi' = fi := hinj fi' hfi' (by rw [← hxp, hxp2])
        rw [hfieq, hcre] at hxf
        exact List.mem_singleton.mp hxf
    have hafter : findByPath (processBatch hashFn db batch).1
        fi.normalizedPath =
        some ⟨fi.normalizedPath, fi.size, h, fi.modTime⟩ := by
      rw [processBatch_findByPath, hfind]
      show (Option.map _ none).or _ = _
      rw [Option.map]
      show ((none : Option ImageFile)).or _ = _
      rw [Option.or]
      exact hCfind
    unfold cacheHit
    rw [hafter]
    simp

theorem processBatch_of_allHit (hashFn : String → Option String)
    (db : List ImageFile) (batch : List FileInfo)
    (h : ∀ fi ∈ batch, cacheHit db fi = true) :
    processBatch hashFn db batch = (db, 0) := by
  rw [processBatch_eq]
  have hU : batch.flatMap (updateOf hashFn db) = [] :=
    List.flatMap_eq_nil_iff.mpr
      (fun fi hfi => updateOf_of_cacheHit hashFn db fi (h fi hfi))
  have hC : batch.flatMap (createOf hashFn db) = [] :=
    List.flatMap_eq_nil_iff.mpr
      (fun fi hfi => createOf_of_cacheHit hashFn db fi (h fi hfi))
  have hcalls : (batch.map (callsOf db)).sum = 0 := by
    apply List.sum_eq_zero
    intro x hx
    rcases List.mem_map.mp hx with ⟨fi, hfi, rfl⟩
    unfold callsOf
    rw [if_pos (h fi hfi)]
  rw [hU, hC, applyUpdates_nil, hcalls]
  simp

theorem sum_callsOf (db : List ImageFile) :
    ∀ (batch : List FileInfo),
      (batch.map (callsOf db)).sum =
        (batch.filter (fun fi => !cacheHit db fi)).length := by
  intro batch
  induction batch with
  | nil => rfl
  | cons fi rest ih =>
    rw [List.map_cons, List.sum_cons, List.filter_cons, ih]
    unfold callsOf
    by_cases hc : cacheHit db fi = true
    · rw [if_pos hc]
      simp [hc]
    · have hcf : cacheHit db fi = false := by
        cases hb : cacheHit db fi
        · rfl
        · exact absurd hb hc
      rw [if_neg hc]
      simp [hcf]
      omega

/-- The digest-invocation count of one batch is exactly the number of
batch files that are not cache hits. -/
theorem processBatch_hashCalls (hashFn : String → Option String)
    (db : List ImageFile) (batch : List FileInfo) :
    (processBatch hashFn db batch).2 =
      (batch.filter (fun fi => !cacheHit db fi)).length := by
  rw [processBatch_eq]
  exact sum_callsOf db batch

/-- A cache-hit file's row is left unchanged by its batch. -/
theorem processBatch_hit_untouched (hashFn : String → Option String)
    (db : List ImageFile) (batch : List FileInfo) (fi : FileInfo)
    (hnodup : (batch.map FileInfo.normalizedPath).Nodup) (hfi : fi ∈ batch)
    (hchit : cacheHit db fi = true) :
    findByPath (processBatch hashFn db batch).1 fi.normalizedPath =
      findByPath db fi.normalizedPath := by
  have hinj : ∀ fi' ∈ batch, fi'.normalizedPath = fi.normalizedPath →
      fi' = fi :=
    fun fi' h' he => List.inj_on_of_nodup_map hnodup h' hfi he
  have hchit2 := hchit
  unfold cacheHit at hchit2
  cases hfind : findByPath db fi.normalizedPath with
  | none =>
    rw [hfind] at hchit2
    simp at hchit2
  | some existing =>
    rw [hfind] at hchit2
    dsimp only at hchit2
    have hexp : existing.path = fi.normalizedPath := by
      simpa using List.find?_some
        (show db.find? (fun r => r.path == fi.normalizedPath) = some existing
          from hfind)
    have hsr : saveRow (batch.flatMap (updateOf hashFn db)) existing =
        existing := by
      unfold saveRow
      have hnone : (batch.flatMap (updateOf hashFn db)).find?
          (fun u => u.path == existing.path) = none := by
        rw [List.find?_eq_none]
        intro u hu hmatch
        rcases List.mem_flatMap.mp hu with ⟨fi', hfi', huf⟩
        have hup := (updateOf_mem hashFn db fi' u huf).1
        have hmatch2 : u.path = existing.path := by simpa using hmatch
        have hfieq : fi' = fi := hinj fi' hfi' (by rw [← hup, hmatch2, hexp])
        rw [hfieq, updateOf_of_cacheHit hashFn db fi hchit] at huf
        cases huf
      rw [hnone]
    rw [processBatch_findByPath, hfind, Option.map_some']
    show some (saveRow (batch.flatMap (updateOf hashFn db)) existing) =
      some existing
    rw [hsr]

theorem scanFold_find_untouched (hashFn : String → Option String) :
    ∀ (cs : List (List FileInfo)) (acc : List ImageFile × Nat) (p : String),
      (∀ fi ∈ cs.flatMap (fun b => b), fi.normalizedPath ≠ p) →
      findByPath (cs.foldl (scanStep hashFn) acc).1 p =
        findByPath acc.1 p := by
  intro cs
  induction cs with
  | nil => intro acc p _; rfl
  | cons b bs ih =>
    intro acc p h
    rw [List.flatMap_cons] at h
    rw [List.foldl_cons]
    have hb : ∀ fi ∈ b, fi.normalizedPath ≠ p :=
      fun fi hfi => h fi (List.mem_append.mpr (Or.inl hfi))
    have hbs : ∀ fi ∈ bs.flatMap (fun x => x), fi.normalizedPath ≠ p :=
      fun fi hfi => h fi (List.mem_append.mpr (Or.inr hfi))
    rw [ih (scanStep hashFn acc b) p hbs]
    exact processBatch_find_untouched hashFn acc.1 b p hb

theorem scanFold_cacheHit (hashFn : String → Option String) :
    ∀ (cs : List (List FileInfo)) (acc : List ImageFile × Nat),
      (((cs.flatMap (fun b => b)).map FileInfo.normalizedPath)).Nodup →
      (∀ fi ∈ cs.flatMap (fun b => b), (hashFn fi.path).isSome) →
      ∀ fi ∈ cs.flatMap (fun b => b),
        cacheHit (cs.foldl (scanStep hashFn) acc).1 fi = true := by
  intro cs
  induction cs with
  | nil =>
    intro acc _ _ fi hfi
    simp at hfi
  | cons b bs ih =>
    intro acc hnodup hhash fi hfi
    rw [List.flatMap_cons] at hnodup hhash hfi
    rw [List.map_append] at hnodup
    rw [List.foldl_cons]
    rcases List.mem_append.mp hfi with hfib | hfibs
    · -- processed in this batch, preserved by the later ones
      have hb_nodup : (b.map FileInfo.normalizedPath).Nodup :=
        hnodup.of_append_left
      have hhit1 := processBatch_cacheHit hashFn acc.1 b hb_nodup
        (fun fi2 h2 => hhash fi2 (List.mem_append.mpr (Or.inl h2))) fi hfib
      have hdisj : ∀ fi2 ∈ bs.flatMap (fun x => x),
          fi2.normalizedPath ≠ fi.normalizedPath := by
        intro fi2 h2 heq
        have hd := List.disjoint_of_nodup_append hnodup
        exact hd (List.mem_map.mpr ⟨fi, hfib, rfl⟩)
          (by rw [← heq]; exact List.mem_map.mpr ⟨fi2, h2, rfl⟩)
      have hpres := scanFold_find_untouched hashFn bs (scanStep hashFn acc b)
        fi.normalizedPath hdisj
      unfold cacheHit at hhit1 ⊢
      rw [hpres]
      exact hhit1
    · exact ih (scanStep hashFn acc b) hnodup.of_append_right
        (fun fi2 h2 => hhash fi2 (List.mem_append.mpr (Or.inr h2))) fi hfibs

theorem scanFold_of_allHit (hashFn : String → Option String) :
    ∀ (cs : List (List FileInfo)) (db : List ImageFile) (n : Nat),
      (∀ fi ∈ cs.flatMap (fun b => b), cacheHit db fi = true) →
      cs.foldl (scanStep hashFn) (db, n) = (db, n) := by
  intro cs
  induction cs with
  | nil => intro db n _; rfl
  | cons b bs ih =>
    intro db n h
    rw [List.foldl_cons]
    have hball : ∀ fi ∈ b, cacheHit db fi = true := by
      intro fi hfi
      apply h
      rw [List.flatMap_cons]
      exact List.mem_append.mpr (Or.inl hfi)
    have hrest : ∀ fi ∈ bs.flatMap (fun x => x), cacheHit db fi = true := by
      intro fi hfi
      apply h
      rw [List.flatMap_cons]
      exact List.mem_append.mpr (Or.inr hfi)
    have hstep : scanStep hashFn (db, n) b = (db, n) := by
      unfold scanStep
      rw [processBatch_of_allHit hashFn db b hball]
      simp
    rw [hstep]
    exact ih db n hrest

theorem chunks50_flatten :
    ∀ (l : List FileInfo), (chunks50 l).flatMap (fun b => b) = l
  | [] => by rw [chunks50]; rfl
  | x :: xs => by
    rw [chunks50, List.flatMap_cons, chunks50_flatten (xs.drop 49)]
    rw [List.cons_append, List.take_append_drop]
termination_by l => l.length
decreasing_by
  simp only [List.length_drop, List.length_cons]
  omega

/-- C1: (i) in any batch with distinct normalized paths, a file whose
index record matches the on-disk size and modification time is not
hashed - the batch's digest count equals the number of non-cache-hit
files - and its record is left unchanged; (ii) consequently, scanning
the same unchanged walked file list twice (all files readable) yields an
index identical to scanning it once, with zero digest invocations on the
second scan. -/
theorem scanDirectory_cache_and_idempotent
    (hashFn : String → Option String) (db : List ImageFile)
    (files : List FileInfo)
    (hnodup : (files.map FileInfo.normalizedPath).Nodup)
    (hhash : ∀ fi ∈ files, (hashFn fi.path).isSome) :
    (∀ (db2 : List ImageFile) (batch : List FileInfo),
      (batch.map FileInfo.normalizedPath).Nodup →
      ∀ fi ∈ batch, cacheHit db2 fi = true →
        (processBatch hashFn db2 batch).2 =
          (batch.filter (fun g => !cacheHit db2 g)).length ∧
        findByPath (processBatch hashFn db2 batch).1 fi.normalizedPath =
          findByPath db2 fi.normalizedPath) ∧
    scanDirectory hashFn (scanDirectory hashFn db files).1 files =
      ((scanDirectory hashFn db files).1, 0) := by
  constructor
  · intro db2 batch hnd fi hfi hchit
    exact ⟨processBatch_hashCalls hashFn db2 batch,
      processBatch_hit_untouched hashFn db2 batch fi hnd hfi hchit⟩
  · have hflat := chunks50_flatten files
    have hsync := scanFold_cacheHit hashFn (chunks50 files) (db, 0)
      (by rw [hflat]; exact hnodup)
      (by rw [hflat]; exact hhash)
    show (chunks50 files).foldl (scanStep hashFn)
        ((scanDirectory hashFn db files).1, 0) = _
    exact scanFold_of_allHit hashFn (chunks50 files)
      (scanDirectory hashFn db files).1 0
      (fun fi hfi => hsync fi hfi)

theorem scanDirectory_cache_and_idempotent_witness :
    (([(⟨"a/x.jpg", "a/x.jpg", 5, 7⟩ : FileInfo), ⟨"a/y.jpg", "a/y.jpg", 6, 8⟩]
        |>.map FileInfo.normalizedPath).Nodup ∧
     (∀ fi ∈ [(⟨"a/x.jpg", "a/x.jpg", 5, 7⟩ : FileInfo),
          ⟨"a/y.jpg", "a/y.jpg", 6, 8⟩],
        ((fun _ => some "h") fi.path : Option String).isSome)) ∧
    scanDirectory (fun _ => some "h")
        (scanDirectory (fun _ => some "h") []
          [(⟨"a/x.jpg", "a/x.jpg", 5, 7⟩ : FileInfo),
           ⟨"a/y.jpg", "a/y.jpg", 6, 8⟩]).1
        [(⟨"a/x.jpg", "a/x.jpg", 5, 7⟩ : FileInfo),
         ⟨"a/y.jpg", "a/y.jpg", 6, 8⟩] =
      ((scanDirectory (fun _ => some "h") []
          [(⟨"a/x.jpg", "a/x.jpg", 5, 7⟩ : FileInfo),
           ⟨"a/y.jpg", "a/y.jpg", 6, 8⟩]).1, 0) :=
  ⟨⟨by decide, by decide⟩,
    (scanDirectory_cache_and_idempotent (fun _ => some "h") []
      [(⟨"a/x.jpg", "a/x.jpg", 5, 7⟩ : FileInfo),
       ⟨"a/y.jpg", "a/y.jpg", 6, 8⟩]
      (by decide) (by decide)).2⟩
